import Mathlib

/-!
Verification of the GitHop ingestion and scoring pipeline.

The definitions below are a shallow embedding of the TypeScript backend:
* the score calculator and sync persistence of `githubService`
  (`calculateSimpleActivityScore`, `calculateSimpleHealthScore`,
  `batchSaveRepositories`, `calculateAndSaveStats`),
* the enrichment worker of `workerService`
  (`fetchAndSaveContributors`, `fetchAndSaveRecentContributorsGraphQL`,
  `saveContributorsToDB`, `fetchAndSaveCommitActivity`),
* the paginated listing endpoint `GET /api/repos/top` of `index.ts`.

Conventions of the embedding:
* Wall-clock reads (`Date.now()`) become an explicit `now : Int` parameter,
  in milliseconds since the epoch, and timestamps are `Int` milliseconds.
* JavaScript numbers appearing in scores are modelled as exact reals
  (`Math.log10 x` is `Real.logb 10 x`, `Math.round x` is `round x`, both
  agree with JS on halves: `round x = ⌊x + 1/2⌋`).
* Nullable fields are `Option`; the JS `x || 0` / `x || 'main'` defaulting
  becomes `Option.getD`.
* Database tables are lists of row structures; `NOW()` columns
  (`last_fetched`, `fetched_at`, `calculated_at`) carry no information the
  code ever reads back and are omitted from the rows.
-/

namespace GitHop

/-- `releases(first: 1).nodes[0]` of the GraphQL search payload. -/
structure Release where
  tagName : String
  publishedAt : Int
deriving DecidableEq

/-- The repository snapshot delivered by the GraphQL search query
(`fetchBatchWithCursor` in githubService): exactly the fields the sync
pipeline reads. -/
structure GitHubRepo where
  databaseId : Nat
  name : String
  nameWithOwner : String
  ownerLogin : String
  ownerAvatarUrl : String
  ownerTypename : String
  description : Option String
  url : String
  homepageUrl : Option String
  stargazerCount : Nat
  forkCount : Nat
  watchersTotalCount : Option Nat
  issuesTotalCount : Option Nat
  diskUsage : Option Nat
  primaryLanguage : Option String
  topics : List String
  licenseName : Option String
  licenseKey : Option String
  createdAt : Int
  updatedAt : Int
  pushedAt : Option Int
  isFork : Bool
  isArchived : Bool
  isDisabled : Bool
  forkingAllowed : Bool
  isTemplate : Bool
  visibility : String
  hasIssuesEnabled : Bool
  hasProjectsEnabled : Bool
  hasWikiEnabled : Bool
  hasDiscussionsEnabled : Bool
  defaultBranchName : Option String
  historyTotalCount : Option Nat
  languagesEdges : List (String × Nat)
  languagesTotalSize : Nat
  releasesTotalCount : Nat
  releasesNodes : List Release
deriving DecidableEq

/-- Milliseconds in a day, the divisor `1000 * 60 * 60 * 24` of the source. -/
def msPerDay : Int := 86400000

/-- `calculateSimpleHealthScore` of githubService, line for line.  `now` is
the `Date.now()` read inside the release-age branch. -/
def calculateSimpleHealthScore (repo : GitHubRepo) (daysSinceCommit : Option Int)
    (now : Int) : Int :=
  let s0 : Int := 50
  let s1 : Int :=
    match daysSinceCommit with
    | none => s0
    | some d =>
      if d ≤ 7 then s0 + 30
      else if d ≤ 30 then s0 + 20
      else if d ≤ 90 then s0 + 10
      else if d > 365 then s0 - 20
      else s0
  let s2 : Int :=
    match repo.releasesNodes.head? with
    | none => s1
    | some rel =>
      let releaseAge : Int := (now - rel.publishedAt).fdiv msPerDay
      if releaseAge ≤ 90 then s1 + 10 else s1
  let s3 : Int :=
    if repo.hasIssuesEnabled = true ∧ 0 < repo.issuesTotalCount.getD 0 then s2 + 5 else s2
  let s4 : Int := if repo.hasDiscussionsEnabled = true then s3 + 5 else s3
  let s5 : Int := if repo.isArchived = true then 0 else s4
  let s6 : Int := if repo.isDisabled = true then 0 else s5
  max 0 (min 100 s6)

/-- The health score exactly as the specification words it: a base of 50,
additive terms, clamping to [0,100], and an archived/disabled override that
takes precedence over everything. -/
def healthScoreSpec (repo : GitHubRepo) (daysSinceCommit : Option Int)
    (now : Int) : Int :=
  if repo.isArchived = true ∨ repo.isDisabled = true then 0
  else
    let commitTerm : Int :=
      match daysSinceCommit with
      | none => 0
      | some d =>
        if d ≤ 7 then 30
        else if d ≤ 30 then 20
        else if d ≤ 90 then 10
        else if d > 365 then -20
        else 0
    let releaseTerm : Int :=
      match repo.releasesNodes.head? with
      | none => 0
      | some rel => if (now - rel.publishedAt).fdiv msPerDay ≤ 90 then 10 else 0
    let issueTerm : Int :=
      if repo.hasIssuesEnabled = true ∧ 0 < repo.issuesTotalCount.getD 0 then 5 else 0
    let discussionTerm : Int := if repo.hasDiscussionsEnabled = true then 5 else 0
    max 0 (min 100 (50 + commitTerm + releaseTerm + issueTerm + discussionTerm))

/-- The running `score` of `calculateSimpleActivityScore` just before the
final two-decimal rounding. -/
noncomputable def calculateSimpleActivityScoreRaw (repo : GitHubRepo)
    (daysSinceCommit : Option Int) : ℝ :=
  let s0 : ℝ := Real.logb 10 ((repo.stargazerCount : ℝ) + 1) * 100
  let s1 : ℝ := s0 + Real.logb 10 ((repo.forkCount : ℝ) + 1) * 50
  let s2 : ℝ :=
    match daysSinceCommit with
    | none => s1
    | some d =>
      if d ≤ 7 then s1 + 200
      else if d ≤ 30 then s1 + 100
      else if d ≤ 90 then s1 + 50
      else if d > 365 then s1 * 0.5
      else s1
  s2 + min ((repo.issuesTotalCount.getD 0 : ℝ)) 100 * 0.5

/-- `calculateSimpleActivityScore` of githubService:
`Math.round(score * 100) / 100`. -/
noncomputable def calculateSimpleActivityScore (repo : GitHubRepo)
    (daysSinceCommit : Option Int) : ℝ :=
  ((round (calculateSimpleActivityScoreRaw repo daysSinceCommit * 100) : ℤ) : ℝ) / 100

/-- The activity score exactly as the specification words it:
`100·log10(stars+1) + 50·log10(forks+1) + recency_bonus + 0.5·min(open_issues,100)`,
where for `days > 365` the whole score accumulated so far (the star and fork
terms) is halved instead of receiving a bonus, no recency term applies when
`days` is null, and the result is rounded to two decimal places. -/
noncomputable def activityScoreSpec (repo : GitHubRepo)
    (daysSinceCommit : Option Int) : ℝ :=
  let base : ℝ :=
    100 * Real.logb 10 ((repo.stargazerCount : ℝ) + 1) +
      50 * Real.logb 10 ((repo.forkCount : ℝ) + 1)
  let afterRecency : ℝ :=
    match daysSinceCommit with
    | none => base
    | some d =>
      if d ≤ 7 then base + 200
      else if d ≤ 30 then base + 100
      else if d ≤ 90 then base + 50
      else if d > 365 then base / 2
      else base
  let total : ℝ := afterRecency + 0.5 * min ((repo.issuesTotalCount.getD 0 : ℝ)) 100
  ((round (total * 100) : ℤ) : ℝ) / 100

/-- The specification's pinned test scenario: stars 1000, forks 200, 10 open
issues, pushed 3 days ago, not archived, not disabled, no releases, issues
enabled, discussions disabled. -/
def pinnedRepo : GitHubRepo where
  databaseId := 1
  name := "scenario"
  nameWithOwner := "owner/scenario"
  ownerLogin := "owner"
  ownerAvatarUrl := "https://avatars.example/u/1"
  ownerTypename := "User"
  description := none
  url := "https://github.example/owner/scenario"
  homepageUrl := none
  stargazerCount := 1000
  forkCount := 200
  watchersTotalCount := some 1000
  issuesTotalCount := some 10
  diskUsage := some 100
  primaryLanguage := some "TypeScript"
  topics := []
  licenseName := none
  licenseKey := none
  createdAt := 0
  updatedAt := 0
  pushedAt := some 0
  isFork := false
  isArchived := false
  isDisabled := false
  forkingAllowed := true
  isTemplate := false
  visibility := "PUBLIC"
  hasIssuesEnabled := true
  hasProjectsEnabled := true
  hasWikiEnabled := true
  hasDiscussionsEnabled := false
  defaultBranchName := some "main"
  historyTotalCount := some 0
  languagesEdges := []
  languagesTotalSize := 0
  releasesTotalCount := 0
  releasesNodes := []

/-- A probe input for the staleness-halving step: stars 9 and forks 0 make
both logarithm terms exact (1 and 0), with 10 open issues. -/
def staleProbeRepo : GitHubRepo :=
  { pinnedRepo with stargazerCount := 9, forkCount := 0 }

/-- The same probe with no open issues (the issue term is zero). -/
def staleProbeRepoNoIssues : GitHubRepo :=
  { staleProbeRepo with issuesTotalCount := none }

/-! ### Enrichment worker: contributors (workerService) -/

/-- A commit author as the GraphQL history query returns it
(`author.user` of one commit node). -/
structure GUser where
  databaseId : Nat
  login : String
  avatarUrl : String
  htmlUrl : String
deriving DecidableEq

/-- One element of the REST `/contributors` JSON (`type` is `userType`
here, `type` being reserved). -/
structure RestContributor where
  id : Nat
  login : String
  avatar_url : String
  html_url : String
  contributions : Nat
  userType : String
deriving DecidableEq

/-- The value record of the `contributorsMap` accumulator in
`fetchAndSaveRecentContributorsGraphQL`. -/
structure GContributor where
  id : Nat
  login : String
  avatar_url : String
  html_url : String
  contributions : Nat
deriving DecidableEq

/-- Outcome of the REST `/contributors` request: a 2xx body, or an HTTP
error with its parsed `message` and `statusText`. -/
inductive PrimaryResult where
  | ok (contributors : List RestContributor)
  | httpError (status : Nat) (message : String) (statusText : String)
deriving DecidableEq

/-- Behaviour of the paged GraphQL commit-history source: it serves the
default branch's commit authors (read in pages of 100), or reports the
repository missing/empty (the 404/MISSING errors), or fails otherwise. -/
inductive HistoryResult where
  | ok (commits : List (Option GUser))
  | notFound
  | failure (message : String)
deriving DecidableEq

/-- An entry handed to `saveContributorsToDB` (REST entries carry a `type`;
GraphQL fallback entries do not and rely on the fallback type). -/
structure IncomingContributor where
  id : Nat
  login : String
  avatar_url : String
  html_url : String
  contributions : Nat
  ctype : Option String
deriving DecidableEq

/-- The `contributors_data_type` discriminator. -/
inductive ContribDataType where
  | all_time
  | recent
deriving DecidableEq

/-- What one run of `fetchAndSaveContributors` for one repository did:
a persistence request (list, fallback `type`, discriminator) or one of the
no-save outcomes. -/
inductive ContribOutcome where
  | saved (contributors : List IncomingContributor) (fallbackType : Option String)
      (dataType : ContribDataType)
  | skippedNoSave
  | fallbackFailed (message : String)
  | thrown (message : String)
deriving DecidableEq

/-- JS `String.prototype.includes` for a non-empty pattern. -/
def includesSubstr (s pat : String) : Bool := decide (1 < (s.splitOn pat).length)

/-- The message fragment GitHub uses for an unserveable contributor list. -/
def tooLargeMessage : String := "list is too large"

/-- `contributorsMap.get` hit: bump the matching entry's count. -/
def bumpLogin (u : GUser) (acc : List GContributor) : List GContributor :=
  acc.map (fun c =>
    if c.login == u.login then { c with contributions := c.contributions + 1 } else c)

/-- One `contributorsMap` update: increment an existing entry or insert a
fresh one with count 1 (a JS `Map` keeps insertion order, modelled as an
association list keyed on login). -/
def tallyInsert (acc : List GContributor) (u : GUser) : List GContributor :=
  if acc.any (fun c => c.login == u.login) then bumpLogin u acc
  else
    acc ++ [{ id := u.databaseId, login := u.login, avatar_url := u.avatarUrl,
              html_url := u.htmlUrl, contributions := 1 }]

/-- Processing of one commit node: counted only when `author.user` exists
and its `databaseId` is truthy. -/
def tallyCommit (acc : List GContributor) (author : Option GUser) : List GContributor :=
  match author with
  | none => acc
  | some u => if u.databaseId ≠ 0 then tallyInsert acc u else acc

/-- The paging loop of `fetchAndSaveRecentContributorsGraphQL`: up to
`fuel` (= `maxPages` = 5) requests of 100 commits each; the upstream's
`hasNextPage` is true exactly when commits remain beyond the served page. -/
def fallbackPageLoop : Nat → List (Option GUser) → List GContributor → List GContributor
  | 0, _, acc => acc
  | fuel + 1, commits, acc =>
    let acc2 := (commits.take 100).foldl tallyCommit acc
    let rest := commits.drop 100
    if rest.isEmpty then acc2 else fallbackPageLoop fuel rest acc2

/-- Descending contribution order, the comparator
`(a, b) => b.contributions - a.contributions` of the source. -/
def contribGE (a b : GContributor) : Prop := b.contributions ≤ a.contributions

instance : DecidableRel contribGE := fun _ _ => Nat.decLe _ _

instance : IsTotal GContributor contribGE :=
  ⟨fun a b => le_total b.contributions a.contributions⟩

instance : IsTrans GContributor contribGE :=
  ⟨fun _ _ _ hab hbc => le_trans hbc hab⟩

/-- A GraphQL fallback entry as handed to `saveContributorsToDB`. -/
def gqlToIncoming (c : GContributor) : IncomingContributor :=
  { id := c.id, login := c.login, avatar_url := c.avatar_url, html_url := c.html_url,
    contributions := c.contributions, ctype := none }

/-- A REST entry as handed to `saveContributorsToDB`. -/
def restToIncoming (c : RestContributor) : IncomingContributor :=
  { id := c.id, login := c.login, avatar_url := c.avatar_url, html_url := c.html_url,
    contributions := c.contributions, ctype := some c.userType }

/-- `fetchAndSaveRecentContributorsGraphQL` (the fallback path): tally the
paged history, and if anything was found, save the 30 entries with the most
contributions under `recent` with fallback type `User`.  A `failure` is
rethrown and caught by `fetchAndSaveContributors` (logged, nothing saved),
modelled by the `fallbackFailed` outcome. -/
def fetchAndSaveRecentContributorsGraphQL (history : HistoryResult) : ContribOutcome :=
  match history with
  | .notFound => .skippedNoSave
  | .failure m => .fallbackFailed m
  | .ok commits =>
    let contributorsMap := fallbackPageLoop 5 commits []
    if contributorsMap.isEmpty then .skippedNoSave
    else
      let sortedContributors := (contributorsMap.insertionSort contribGE).take 30
      .saved (sortedContributors.map gqlToIncoming) (some "User") .recent

/-- `fetchAndSaveContributors`: the REST call first; on HTTP 403 whose
message contains the too-large fragment, the GraphQL fallback; any other
HTTP failure throws. -/
def fetchAndSaveContributors (primary : PrimaryResult) (history : HistoryResult) :
    ContribOutcome :=
  match primary with
  | .ok contributors => .saved (contributors.map restToIncoming) none .all_time
  | .httpError status message statusText =>
    if status = 403 ∧ includesSubstr message tooLargeMessage = true then
      fetchAndSaveRecentContributorsGraphQL history
    else
      .thrown ("Failed to fetch contributors: " ++ toString status ++ " " ++ statusText)

/-- The too-large-result condition as the specification words it: the
specific HTTP status AND the recognizable message fragment, never the
status alone. -/
def isTooLargeFailure : PrimaryResult → Prop
  | .ok _ => False
  | .httpError status message _ => status = 403 ∧ includesSubstr message tooLargeMessage = true

/-- The number of commits whose author is a valid user with login `lg`:
the per-author contribution count the claim describes. -/
def authorCount (commits : List (Option GUser)) (lg : String) : Nat :=
  commits.countP (fun a =>
    match a with
    | some u => decide (u.databaseId ≠ 0) && (u.login == lg)
    | none => false)

/-- First-match contribution lookup in the accumulator. -/
def contribOf : List GContributor → String → Nat
  | [], _ => 0
  | c :: rest, lg => if c.login = lg then c.contributions else contribOf rest lg

/-- One contributor-refresh attempt for a repository, as its effect on the
`contributors_data_type` column (`saveContributorsToDB` sets the column to
the data type of what it saves; failed attempts leave it unchanged). -/
def applyContribRefresh (s : String) (op : PrimaryResult × HistoryResult) : String :=
  match fetchAndSaveContributors op.1 op.2 with
  | .saved _ _ .all_time => "all_time"
  | .saved _ _ .recent => "recent"
  | _ => s

/-- The `contributors_data_type` column for one repository after a sequence
of refresh attempts, starting from the schema default `'all_time'`. -/
def contribDataTypeAfter (ops : List (PrimaryResult × HistoryResult)) : String :=
  ops.foldl applyContribRefresh "all_time"

/-- Whether a refresh attempt persisted anything. -/
def refreshSaved (op : PrimaryResult × HistoryResult) : Bool :=
  match fetchAndSaveContributors op.1 op.2 with
  | .saved _ _ _ => true
  | _ => false

/-- Whether a refresh attempt persisted via the fallback (commit-history)
path, the only producer of `recent`. -/
def refreshUsedFallback (op : PrimaryResult × HistoryResult) : Bool :=
  match fetchAndSaveContributors op.1 op.2 with
  | .saved _ _ .recent => true
  | _ => false

/-! ### Persistence of contributors and commit activity -/

/-- A row of `repository_contributors` (the `fetched_at` NOW() column is
omitted; `type` is `ctype` here). -/
structure ContributorRow where
  repository_id : Nat
  github_id : Nat
  login : String
  avatar_url : String
  html_url : String
  contributions : Nat
  ctype : Option String
deriving DecidableEq

/-- The row one incoming entry inserts
(`contributor.type || fallbackType` picks the fallback when absent). -/
def toContributorRow (repoId : Nat) (fallbackType : Option String)
    (c : IncomingContributor) : ContributorRow :=
  { repository_id := repoId, github_id := c.id, login := c.login,
    avatar_url := c.avatar_url, html_url := c.html_url,
    contributions := c.contributions,
    ctype := match c.ctype with | some t => some t | none => fallbackType }

/-- `INSERT ... ON CONFLICT (repository_id, github_id) DO UPDATE SET
contributions = EXCLUDED.contributions`. -/
def upsertContributorRow (table : List ContributorRow) (row : ContributorRow) :
    List ContributorRow :=
  if table.any (fun r =>
      r.repository_id == row.repository_id && r.github_id == row.github_id) then
    table.map (fun r =>
      if r.repository_id == row.repository_id && r.github_id == row.github_id then
        { r with contributions := row.contributions }
      else r)
  else table ++ [row]

/-- `saveContributorsToDB`: one transaction deleting the repository's
contributor rows and inserting the fetched list, skipping entries without a
login. -/
def saveContributorsToDB (table : List ContributorRow) (repoId : Nat)
    (contributors : List IncomingContributor) (fallbackType : Option String) :
    List ContributorRow :=
  let cleared := table.filter (fun r => r.repository_id != repoId)
  contributors.foldl
    (fun acc c =>
      if c.login = "" then acc
      else upsertContributorRow acc (toContributorRow repoId fallbackType c))
    cleared

/-- One week of the REST `stats/commit_activity` JSON. -/
structure ActivityWeek where
  week : Nat
  total : Nat
deriving DecidableEq

/-- A row of `repository_commit_activity` (`week_date` is
`new Date(week * 1000)`, carried here in milliseconds; `fetched_at`
omitted). -/
structure CommitActivityRow where
  repository_id : Nat
  week_timestamp : Nat
  week_date_ms : Nat
  total_commits : Nat
deriving DecidableEq

/-- The row one week of the aggregate inserts. -/
def toCommitActivityRow (repoId : Nat) (w : ActivityWeek) : CommitActivityRow :=
  { repository_id := repoId, week_timestamp := w.week,
    week_date_ms := w.week * 1000, total_commits := w.total }

/-- `INSERT ... ON CONFLICT (repository_id, week_timestamp) DO UPDATE SET
total_commits = EXCLUDED.total_commits`. -/
def upsertCommitActivityRow (table : List CommitActivityRow)
    (row : CommitActivityRow) : List CommitActivityRow :=
  if table.any (fun r =>
      r.repository_id == row.repository_id &&
        r.week_timestamp == row.week_timestamp) then
    table.map (fun r =>
      if r.repository_id == row.repository_id &&
          r.week_timestamp == row.week_timestamp then
        { r with total_commits := row.total_commits }
      else r)
  else table ++ [row]

/-- `fetchAndSaveCommitActivity`: a non-2xx response soft-skips on 202 and
throws otherwise; a non-array (`body = none`) or empty body is a no-op;
otherwise the repository's weekly series is replaced in one transaction. -/
def fetchAndSaveCommitActivity (table : List CommitActivityRow) (repoId : Nat)
    (status : Nat) (body : Option (List ActivityWeek)) :
    Except String (List CommitActivityRow) :=
  if ¬ (200 ≤ status ∧ status < 300) then
    if status = 202 then .ok table
    else .error ("Failed to fetch commit activity: " ++ toString status)
  else
    match body with
    | none => .ok table
    | some weeks =>
      if weeks.isEmpty then .ok table
      else
        let cleared := table.filter (fun r => r.repository_id != repoId)
        .ok (weeks.foldl
          (fun acc w => upsertCommitActivityRow acc (toCommitActivityRow repoId w))
          cleared)

/-- A sample fetched contributor used to instantiate the replacement
theorem at a concrete input. -/
def sampleIncoming : IncomingContributor :=
  { id := 7, login := "alice", avatar_url := "https://avatars.example/u/7",
    html_url := "https://github.example/alice", contributions := 12,
    ctype := some "User" }

/-- A sample commit-activity week for the same purpose. -/
def sampleWeek : ActivityWeek := { week := 1700000000, total := 4 }

/-! ### Listing endpoint pagination (GET /api/repos/top in index.ts) -/

/-- The ordering key of a stored repository row: `(stars_count, id)`, the
only columns the compound cursor and the `ORDER BY` read. -/
structure RepoKey where
  stars : Int
  id : Int
deriving DecidableEq

/-- `ORDER BY stars_count DESC, id DESC`: `a` may precede `b`. -/
def repoKeyGE (a b : RepoKey) : Prop :=
  b.stars < a.stars ∨ (a.stars = b.stars ∧ b.id ≤ a.id)

/-- The SQL row comparison `(r.stars_count, r.id) < (lastStars, lastId)`:
strict lexicographic order. -/
def repoKeyLT (a b : RepoKey) : Prop :=
  a.stars < b.stars ∨ (a.stars = b.stars ∧ a.id < b.id)

instance : DecidableRel repoKeyGE := fun a b => by
  unfold repoKeyGE; infer_instance

instance : DecidableRel repoKeyLT := fun a b => by
  unfold repoKeyLT; infer_instance

instance : IsTotal RepoKey repoKeyGE :=
  ⟨fun a b => by unfold repoKeyGE; omega⟩

instance : IsTrans RepoKey repoKeyGE :=
  ⟨fun a b c hab hbc => by
    unfold repoKeyGE at *; omega⟩

instance : IsAntisymm RepoKey repoKeyGE :=
  ⟨fun a b hab hba => by
    unfold repoKeyGE at hab hba
    have hs : a.stars = b.stars := by omega
    have hi : a.id = b.id := by omega
    cases a; cases b
    simp only [RepoKey.mk.injEq]
    exact ⟨hs, hi⟩⟩

/-- `GET /api/repos/top`: with a cursor keep only rows strictly below
`(lastStars, lastId)` in the row order, sort by stars then id descending
(the SQL engine's sort, modelled by insertion sort), and take `limit`. -/
def topReposQuery (db : List RepoKey) (cursor : Option RepoKey) (limit : Nat) :
    List RepoKey :=
  let filtered :=
    match cursor with
    | none => db
    | some c => db.filter (fun r => decide (repoKeyLT r c))
  (filtered.insertionSort repoKeyGE).take limit

/-- A sample repository table with a three-way tie on stars. -/
def sampleRepoKeys : List RepoKey :=
  [{ stars := 5, id := 1 }, { stars := 5, id := 2 }, { stars := 5, id := 3 },
   { stars := 4, id := 4 }]

/-! ### Sync persistence (batchSaveRepositories / calculateAndSaveStats) -/

/-- A row of `repositories` (the `last_fetched` NOW() column omitted;
the serial surrogate key is represented by the equally-unique
`github_id`). -/
structure RepositoryRow where
  github_id : Nat
  name : String
  full_name : String
  owner_login : String
  owner_avatar_url : String
  owner_type : String
  description : Option String
  html_url : String
  homepage_url : Option String
  stars_count : Nat
  forks_count : Nat
  watchers_count : Nat
  open_issues_count : Nat
  size_kb : Nat
  language : Option String
  topics : List String
  license_name : Option String
  license_key : Option String
  created_at : Int
  updated_at : Int
  pushed_at : Option Int
  is_fork : Bool
  is_archived : Bool
  is_disabled : Bool
  allow_forking : Bool
  is_template : Bool
  visibility : String
  has_issues : Bool
  has_projects : Bool
  has_downloads : Bool
  has_wiki : Bool
  has_pages : Bool
  has_discussions : Bool
  default_branch : String
  subscribers_count : Nat
  network_count : Nat
deriving DecidableEq

/-- The `INSERT` VALUES of `batchSaveRepositories`: note the literal `true`
for `has_downloads` and `false` for `has_pages`, the watcher count reused
for `subscribers_count` and the fork count for `network_count`. -/
def insertRepositoryRow (repo : GitHubRepo) : RepositoryRow where
  github_id := repo.databaseId
  name := repo.name
  full_name := repo.nameWithOwner
  owner_login := repo.ownerLogin
  owner_avatar_url := repo.ownerAvatarUrl
  owner_type := repo.ownerTypename
  description := repo.description
  html_url := repo.url
  homepage_url := repo.homepageUrl
  stars_count := repo.stargazerCount
  forks_count := repo.forkCount
  watchers_count := repo.watchersTotalCount.getD 0
  open_issues_count := repo.issuesTotalCount.getD 0
  size_kb := repo.diskUsage.getD 0
  language := repo.primaryLanguage
  topics := repo.topics
  license_name := repo.licenseName
  license_key := repo.licenseKey
  created_at := repo.createdAt
  updated_at := repo.updatedAt
  pushed_at := repo.pushedAt
  is_fork := repo.isFork
  is_archived := repo.isArchived
  is_disabled := repo.isDisabled
  allow_forking := repo.forkingAllowed
  is_template := repo.isTemplate
  visibility := repo.visibility
  has_issues := repo.hasIssuesEnabled
  has_projects := repo.hasProjectsEnabled
  has_downloads := true
  has_wiki := repo.hasWikiEnabled
  has_pages := false
  has_discussions := repo.hasDiscussionsEnabled
  default_branch := repo.defaultBranchName.getD "main"
  subscribers_count := repo.watchersTotalCount.getD 0
  network_count := repo.forkCount

/-- The `ON CONFLICT (github_id) DO UPDATE SET` column list: only these
columns are refreshed on a resync (`has_pages` to the excluded literal
`false`); every other column keeps its stored value. -/
def updateRepositoryRow (old : RepositoryRow) (repo : GitHubRepo) : RepositoryRow :=
  { old with
    name := repo.name
    description := repo.description
    stars_count := repo.stargazerCount
    forks_count := repo.forkCount
    watchers_count := repo.watchersTotalCount.getD 0
    open_issues_count := repo.issuesTotalCount.getD 0
    size_kb := repo.diskUsage.getD 0
    language := repo.primaryLanguage
    topics := repo.topics
    updated_at := repo.updatedAt
    pushed_at := repo.pushedAt
    is_archived := repo.isArchived
    is_disabled := repo.isDisabled
    has_issues := repo.hasIssuesEnabled
    has_wiki := repo.hasWikiEnabled
    has_pages := false
    has_discussions := repo.hasDiscussionsEnabled }

/-- The repository upsert of `batchSaveRepositories` for one snapshot. -/
def upsertRepository (table : List RepositoryRow) (repo : GitHubRepo) :
    List RepositoryRow :=
  if table.any (fun r => r.github_id == repo.databaseId) then
    table.map (fun r =>
      if r.github_id == repo.databaseId then updateRepositoryRow r repo else r)
  else table ++ [insertRepositoryRow repo]

/-- A row of `repository_languages` (percentage is exact rational; the
float computed by the code approximates it). -/
structure RepositoryLanguageRow where
  repository_id : Nat
  language_name : String
  bytes_count : Nat
  percentage : ℚ
deriving DecidableEq

/-- The language row for one edge: percentage over the snapshot's total
size when that is positive, else 0. -/
def toLanguageRow (repo : GitHubRepo) (lang : String × Nat) : RepositoryLanguageRow :=
  { repository_id := repo.databaseId
    language_name := lang.1
    bytes_count := lang.2
    percentage :=
      if 0 < repo.languagesTotalSize then
        ((lang.2 : ℚ) / (repo.languagesTotalSize : ℚ)) * 100
      else 0 }

/-- `INSERT ... ON CONFLICT (repository_id, language_name) DO UPDATE SET
bytes_count, percentage`. -/
def upsertLanguageRow (table : List RepositoryLanguageRow)
    (row : RepositoryLanguageRow) : List RepositoryLanguageRow :=
  if table.any (fun r =>
      r.repository_id == row.repository_id &&
        r.language_name == row.language_name) then
    table.map (fun r =>
      if r.repository_id == row.repository_id &&
          r.language_name == row.language_name then
        { r with bytes_count := row.bytes_count, percentage := row.percentage }
      else r)
  else table ++ [row]

/-- The language replacement of `batchSaveRepositories` for one snapshot:
nothing when the snapshot carries no language edges, else delete the
repository's rows and insert the snapshot's. -/
def replaceLanguages (table : List RepositoryLanguageRow) (repo : GitHubRepo) :
    List RepositoryLanguageRow :=
  if repo.languagesEdges.isEmpty then table
  else
    repo.languagesEdges.foldl
      (fun acc lang => upsertLanguageRow acc (toLanguageRow repo lang))
      (table.filter (fun r => r.repository_id != repo.databaseId))

/-- A row of `repository_stats` as the sync writes it (`calculated_at`
omitted; columns the sync never touches are left out: the enrichment
worker owns them). -/
structure RepositoryStatsRow where
  repository_id : Nat
  commits_last_year : Nat
  days_since_last_commit : Option Int
  days_since_last_release : Option Int
  latest_release_tag : Option String
  latest_release_date : Option Int
  total_releases : Nat
  activity_score : ℝ
  health_score : Int

/-- The stats row `calculateAndSaveStats` computes for one snapshot at
clock `now`.  Both the insert and the conflict update set every one of
these columns, so the update is this same row. -/
noncomputable def toStatsRow (repo : GitHubRepo) (now : Int) : RepositoryStatsRow :=
  let daysSinceCommit := repo.pushedAt.map (fun t => (now - t).fdiv msPerDay)
  { repository_id := repo.databaseId
    commits_last_year := repo.historyTotalCount.getD 0
    days_since_last_commit := daysSinceCommit
    days_since_last_release := repo.releasesNodes.head?.map
      (fun rel => (now - rel.publishedAt).fdiv msPerDay)
    latest_release_tag := repo.releasesNodes.head?.map Release.tagName
    latest_release_date := repo.releasesNodes.head?.map Release.publishedAt
    total_releases := repo.releasesTotalCount
    activity_score := calculateSimpleActivityScore repo daysSinceCommit
    health_score := calculateSimpleHealthScore repo daysSinceCommit now }

/-- `INSERT ... ON CONFLICT (repository_id) DO UPDATE SET <all columns>`. -/
noncomputable def upsertStats (table : List RepositoryStatsRow) (repo : GitHubRepo)
    (now : Int) : List RepositoryStatsRow :=
  if table.any (fun r => r.repository_id == repo.databaseId) then
    table.map (fun r =>
      if r.repository_id == repo.databaseId then toStatsRow repo now else r)
  else table ++ [toStatsRow repo now]

/-- The three stored tables. -/
structure DBState where
  repositories : List RepositoryRow
  repository_languages : List RepositoryLanguageRow
  repository_stats : List RepositoryStatsRow

/-- The empty store. -/
def emptyDB : DBState :=
  { repositories := [], repository_languages := [], repository_stats := [] }

/-- One iteration of the `batchSaveRepositories` loop. -/
def saveRepositoryWithLanguages (db : DBState) (repo : GitHubRepo) : DBState :=
  { db with
    repositories := upsertRepository db.repositories repo
    repository_languages := replaceLanguages db.repository_languages repo }

/-- `batchSaveRepositories`: one transaction over the page. -/
def batchSaveRepositories (db : DBState) (repos : List GitHubRepo) : DBState :=
  repos.foldl saveRepositoryWithLanguages db

/-- `calculateAndSaveStats`: for each snapshot, skip when the repository
row is absent, else upsert its stats. -/
noncomputable def calculateAndSaveStats (db : DBState) (repos : List GitHubRepo)
    (now : Int) : DBState :=
  repos.foldl
    (fun db repo =>
      if db.repositories.any (fun r => r.github_id == repo.databaseId) then
        { db with repository_stats := upsertStats db.repository_stats repo now }
      else db)
    db

/-- One page of the sync loop: persist the batch, then compute and persist
its stats, at one clock reading. -/
noncomputable def syncPage (db : DBState) (repos : List GitHubRepo) (now : Int) :
    DBState :=
  calculateAndSaveStats (batchSaveRepositories db repos) repos now

/-- The repository table produced by a sequence of sync batches from an
empty store. -/
def runSyncBatches (pages : List (List GitHubRepo)) : DBState :=
  pages.foldl batchSaveRepositories emptyDB

/-- The language rows one snapshot contributes: its fold of upserts over an
empty base (used to characterise `replaceLanguages`). -/
def langBlock (repo : GitHubRepo) : List RepositoryLanguageRow :=
  repo.languagesEdges.foldl
    (fun acc lang => upsertLanguageRow acc (toLanguageRow repo lang)) []

/-- The ids of a page's snapshots that carry language edges (whose stored
language rows the page replaces). -/
def langTouchedIds (page : List GitHubRepo) : List Nat :=
  (page.filter (fun p => !p.languagesEdges.isEmpty)).map GitHubRepo.databaseId

/-- Two snapshots of one repository differing only in the homepage URL,
probing the resync update. -/
def resyncProbeOld : GitHubRepo :=
  { pinnedRepo with homepageUrl := some "https://old.example" }

/-- The later snapshot with the changed homepage URL. -/
def resyncProbeNew : GitHubRepo :=
  { pinnedRepo with homepageUrl := some "https://new.example" }

/-! ## Theorems -/

/-! ### Lemmas about the fallback tally -/

theorem contribOf_eq_zero {acc : List GContributor} {lg : String}
    (h : acc.any (fun c => c.login == lg) = false) : contribOf acc lg = 0 := by
  induction acc with
  | nil => rfl
  | cons c rest ih =>
    simp only [List.any_cons, Bool.or_eq_false_iff, beq_eq_false_iff_ne] at h
    simp only [contribOf, if_neg h.1]
    exact ih h.2

theorem contribOf_append_singleton (acc : List GContributor) (x : GContributor)
    (lg : String) :
    contribOf (acc ++ [x]) lg =
      if acc.any (fun c => c.login == lg) then contribOf acc lg
      else if x.login = lg then x.contributions else 0 := by
  induction acc with
  | nil => simp [contribOf]
  | cons c rest ih =>
    by_cases hc : c.login = lg
    · simp [contribOf, hc]
    · simp [contribOf, hc, ih]

theorem contribOf_bumpLogin_ne (u : GUser) (acc : List GContributor) {lg : String}
    (h : lg ≠ u.login) : contribOf (bumpLogin u acc) lg = contribOf acc lg := by
  induction acc with
  | nil => rfl
  | cons c rest ih =>
    by_cases hc : c.login = lg
    · have h2 : ¬ c.login = u.login := fun he => h (hc.symm.trans he)
      simp [bumpLogin, contribOf, hc, h2, h, apply_ite GContributor.login,
        apply_ite GContributor.contributions]
    · by_cases hcu : c.login = u.login
      · have h3 : ¬ u.login = lg := fun he => hc (hcu.trans he)
        simpa [bumpLogin, contribOf, hc, hcu, h3] using ih
      · simpa [bumpLogin, contribOf, hc, hcu] using ih

theorem contribOf_bumpLogin_eq (u : GUser) (acc : List GContributor)
    (h : acc.any (fun c => c.login == u.login) = true) :
    contribOf (bumpLogin u acc) u.login = contribOf acc u.login + 1 := by
  induction acc with
  | nil => simp at h
  | cons c rest ih =>
    by_cases hcu : c.login = u.login
    · simp [bumpLogin, contribOf, hcu]
    · have h2 : rest.any (fun c => c.login == u.login) = true := by
        simpa [List.any_cons, hcu] using h
      simpa [bumpLogin, contribOf, hcu] using ih h2

theorem contribOf_tallyInsert (acc : List GContributor) (u : GUser) (lg : String) :
    contribOf (tallyInsert acc u) lg =
      contribOf acc lg + (if lg = u.login then 1 else 0) := by
  unfold tallyInsert
  cases hany : acc.any (fun c => c.login == u.login) with
  | true =>
    rw [if_pos rfl]
    by_cases hu : lg = u.login
    · subst hu
      rw [contribOf_bumpLogin_eq u acc hany]
      simp
    · rw [contribOf_bumpLogin_ne u acc hu]
      simp [hu]
  | false =>
    rw [if_neg (by simp [hany])]
    rw [contribOf_append_singleton]
    by_cases hu : lg = u.login
    · subst hu
      rw [if_neg (by simp [hany]), if_pos rfl, contribOf_eq_zero hany]
      simp
    · cases h2 : acc.any (fun c => c.login == lg) with
      | true => simp [h2, hu]
      | false =>
        rw [if_neg (by simp [h2]), if_neg (fun he => hu he.symm)]
        rw [contribOf_eq_zero h2]
        simp [hu]

theorem contribOf_foldl_tallyCommit (commits : List (Option GUser)) :
    ∀ (acc : List GContributor) (lg : String),
      contribOf (commits.foldl tallyCommit acc) lg =
        contribOf acc lg + authorCount commits lg := by
  induction commits with
  | nil => intro acc lg; simp [authorCount]
  | cons a rest ih =>
    intro acc lg
    rw [List.foldl_cons, ih]
    cases a with
    | none => simp [tallyCommit, authorCount]
    | some u =>
      by_cases hid : u.databaseId ≠ 0
      · rw [show tallyCommit acc (some u) = tallyInsert acc u by simp [tallyCommit, hid]]
        rw [contribOf_tallyInsert]
        by_cases hlg : u.login = lg
        · subst hlg
          simp [authorCount, List.countP_cons, hid]
          omega
        · have h2 : ¬ lg = u.login := fun he => hlg he.symm
          simp [authorCount, List.countP_cons, hid, hlg, h2]
      · simp only [ne_eq, not_not] at hid
        simp [tallyCommit, hid, authorCount, List.countP_cons]

theorem bumpLogin_logins (u : GUser) (acc : List GContributor) :
    (bumpLogin u acc).map GContributor.login = acc.map GContributor.login := by
  unfold bumpLogin
  rw [List.map_map]
  refine List.map_congr_left fun c _ => ?_
  simp only [Function.comp_apply]
  split <;> rfl

theorem tallyInsert_logins_nodup {acc : List GContributor} (u : GUser)
    (h : (acc.map GContributor.login).Nodup) :
    ((tallyInsert acc u).map GContributor.login).Nodup := by
  unfold tallyInsert
  cases hany : acc.any (fun c => c.login == u.login) with
  | true =>
    rw [if_pos rfl, bumpLogin_logins]
    exact h
  | false =>
    rw [if_neg (by simp [hany]), List.map_append]
    rw [List.nodup_append]
    refine ⟨h, List.nodup_singleton _, ?_⟩
    intro a ha hb
    simp only [List.map_cons, List.map_nil, List.mem_singleton] at hb
    subst hb
    rcases List.mem_map.mp ha with ⟨c, hc, hlogin⟩
    have hx : (acc.any fun c => c.login == u.login) = true :=
      List.any_eq_true.mpr ⟨c, hc, by simp [hlogin]⟩
    rw [hany] at hx
    cases hx

theorem tallyInsert_pos {acc : List GContributor} (u : GUser)
    (h : ∀ c ∈ acc, 0 < c.contributions) :
    ∀ c ∈ tallyInsert acc u, 0 < c.contributions := by
  unfold tallyInsert
  split
  · intro c hc
    rcases List.mem_map.mp hc with ⟨d, hd, rfl⟩
    have hpos := h d hd
    split
    · simp only []
      omega
    · exact hpos
  · intro c hc
    rcases List.mem_append.mp hc with hmem | hmem
    · exact h c hmem
    · simp only [List.mem_singleton] at hmem
      subst hmem
      norm_num

theorem foldl_tallyCommit_invariant (commits : List (Option GUser)) :
    ∀ acc : List GContributor, (acc.map GContributor.login).Nodup →
      (∀ c ∈ acc, 0 < c.contributions) →
      ((commits.foldl tallyCommit acc).map GContributor.login).Nodup ∧
        ∀ c ∈ commits.foldl tallyCommit acc, 0 < c.contributions := by
  induction commits with
  | nil => exact fun acc h1 h2 => ⟨h1, h2⟩
  | cons a rest ih =>
    intro acc h1 h2
    rw [List.foldl_cons]
    cases a with
    | none => exact ih acc h1 h2
    | some u =>
      by_cases hid : u.databaseId ≠ 0
      · rw [show tallyCommit acc (some u) = tallyInsert acc u by simp [tallyCommit, hid]]
        exact ih _ (tallyInsert_logins_nodup u h1) (tallyInsert_pos u h2)
      · simp only [ne_eq, not_not] at hid
        rw [show tallyCommit acc (some u) = acc by simp [tallyCommit, hid]]
        exact ih acc h1 h2

theorem contribOf_of_mem {acc : List GContributor}
    (hnodup : (acc.map GContributor.login).Nodup) {c : GContributor} (hc : c ∈ acc) :
    contribOf acc c.login = c.contributions := by
  induction acc with
  | nil => cases hc
  | cons d rest ih =>
    simp only [List.map_cons, List.nodup_cons] at hnodup
    rcases List.mem_cons.mp hc with rfl | hmem
    · simp [contribOf]
    · have hd : ¬ d.login = c.login := by
        intro he
        apply hnodup.1
        rw [he]
        exact List.mem_map_of_mem _ hmem
      simp only [contribOf, if_neg hd]
      exact ih hnodup.2 hmem

theorem fallbackPageLoop_eq (fuel : Nat) :
    ∀ (commits : List (Option GUser)) (acc : List GContributor),
      fallbackPageLoop (fuel + 1) commits acc =
        (commits.take (100 * (fuel + 1))).foldl tallyCommit acc := by
  induction fuel with
  | zero =>
    intro commits acc
    simp only [fallbackPageLoop, Nat.mul_one]
    split <;> rfl
  | succ n ih =>
    intro commits acc
    rw [show fallbackPageLoop (n + 1 + 1) commits acc =
        (if (commits.drop 100).isEmpty then (commits.take 100).foldl tallyCommit acc
         else fallbackPageLoop (n + 1) (commits.drop 100)
           ((commits.take 100).foldl tallyCommit acc)) from rfl]
    by_cases hrest : (commits.drop 100).isEmpty
    · rw [if_pos hrest]
      have hlen : commits.length ≤ 100 := by
        rw [List.isEmpty_iff, List.drop_eq_nil_iff] at hrest
        exact hrest
      rw [List.take_of_length_le hlen,
        List.take_of_length_le
          (show commits.length ≤ 100 * (n + 1 + 1) from hlen.trans (by omega))]
    · rw [if_neg hrest, ih, ← List.foldl_append, ← List.take_add]
      have harith : 100 + 100 * (n + 1) = 100 * (n + 1 + 1) := by ring
      rw [harith]

set_option maxHeartbeats 1000000 in
/-- C1: for every repository snapshot, nullable days-since-last-commit and
clock reading, `calculateSimpleHealthScore` computes exactly the
specification's health score (base 50, recency/release/issue/discussion
terms, integer result clamped to [0,100]); in particular it always lies in
[0,100] and is 0 whenever the repository is archived or disabled, regardless
of every other input. -/
theorem health_score_matches_spec (repo : GitHubRepo) (daysSinceCommit : Option Int)
    (now : Int) :
    calculateSimpleHealthScore repo daysSinceCommit now =
        healthScoreSpec repo daysSinceCommit now ∧
      0 ≤ calculateSimpleHealthScore repo daysSinceCommit now ∧
      calculateSimpleHealthScore repo daysSinceCommit now ≤ 100 ∧
      (repo.isArchived = true ∨ repo.isDisabled = true →
        calculateSimpleHealthScore repo daysSinceCommit now = 0) := by
  refine ⟨?_, le_max_left 0 _, max_le (by norm_num) (min_le_left 100 _), ?_⟩
  · unfold calculateSimpleHealthScore healthScoreSpec
    cases hA : repo.isArchived <;> cases hD : repo.isDisabled <;>
      cases daysSinceCommit <;> cases hr : repo.releasesNodes.head? <;>
        simp [hA, hD, hr] <;> split_ifs <;> omega
  · intro h
    unfold calculateSimpleHealthScore
    rcases h with h | h <;> simp [h]

/-- C2: for every repository snapshot and nullable days-since-last-commit,
`calculateSimpleActivityScore` computes exactly the specification's activity
score: `100·log10(stars+1) + 50·log10(forks+1) + recency_bonus +
0.5·min(open_issues,100)`, with the entire accumulated score (not just the
bonus) halved when days > 365, no recency term when days is null, and the
result rounded to two decimal places. -/
theorem activity_score_matches_spec (repo : GitHubRepo) (daysSinceCommit : Option Int) :
    calculateSimpleActivityScore repo daysSinceCommit =
      activityScoreSpec repo daysSinceCommit := by
  have key : ∀ a b : ℝ, a = b →
      ((round (a * 100) : ℤ) : ℝ) / 100 = ((round (b * 100) : ℤ) : ℝ) / 100 := by
    intro a b h; rw [h]
  cases daysSinceCommit <;>
    simp only [calculateSimpleActivityScore, activityScoreSpec,
      calculateSimpleActivityScoreRaw] <;>
    first
      | (split_ifs <;> exact key _ _ (by ring))
      | exact key _ _ (by ring)

/-- C3 fails on the code: in the pinned scenario the open-issue bonus (+5)
applies, because issues are enabled and 10 > 0, so the health score is 85,
not the claimed 80. -/
theorem scenario_health_score_not_80 :
    calculateSimpleHealthScore pinnedRepo (some 3) 0 ≠ 80 := by decide

/-- C3 (amended): in the pinned scenario the health score is 85 (the claimed
50 + 30 misses the +5 open-issues bonus), and the activity score is the
two-decimal rounding of `100·log10(1001) + 50·log10(201) + 200 + 5`, which
exceeds 600 (≈ 620.20), not ≈ 505.07 as claimed. -/
theorem scenario_scores_amended :
    calculateSimpleHealthScore pinnedRepo (some 3) 0 = 85 ∧
      calculateSimpleActivityScore pinnedRepo (some 3) =
        ((round ((100 * Real.logb 10 1001 + 50 * Real.logb 10 201 + 200 + 5) * 100) : ℤ) :
            ℝ) / 100 ∧
      600 < calculateSimpleActivityScore pinnedRepo (some 3) := by
  have hval : calculateSimpleActivityScoreRaw pinnedRepo (some 3) =
      Real.logb 10 1001 * 100 + Real.logb 10 201 * 50 + 200 + 5 := by
    simp only [calculateSimpleActivityScoreRaw, pinnedRepo, Option.getD_some]
    norm_num [min_def]
  have hlog1 : (3 : ℝ) ≤ Real.logb 10 1001 := by
    have h1000 : Real.logb 10 1000 = 3 := by
      rw [show (1000 : ℝ) = 10 ^ (3 : ℕ) by norm_num, Real.logb_pow]
      rw [Real.logb_self_eq_one (by norm_num : (1 : ℝ) < 10)]
      norm_num
    calc (3 : ℝ) = Real.logb 10 1000 := h1000.symm
      _ ≤ Real.logb 10 1001 :=
        Real.logb_le_logb_of_le (by norm_num) (by norm_num) (by norm_num)
  have hlog2 : (2 : ℝ) ≤ Real.logb 10 201 := by
    have h100 : Real.logb 10 100 = 2 := by
      rw [show (100 : ℝ) = 10 ^ (2 : ℕ) by norm_num, Real.logb_pow]
      rw [Real.logb_self_eq_one (by norm_num : (1 : ℝ) < 10)]
      norm_num
    calc (2 : ℝ) = Real.logb 10 100 := h100.symm
      _ ≤ Real.logb 10 201 :=
        Real.logb_le_logb_of_le (by norm_num) (by norm_num) (by norm_num)
  refine ⟨by decide, ?_, ?_⟩
  · unfold calculateSimpleActivityScore
    rw [hval]
    exact congrArg (fun z : ℤ => (z : ℝ) / 100) (congrArg round (by ring))
  · unfold calculateSimpleActivityScore
    rw [hval]
    have hround := sub_half_lt_round
      ((Real.logb 10 1001 * 100 + Real.logb 10 201 * 50 + 200 + 5) * 100)
    rw [lt_div_iff₀ (by norm_num : (0 : ℝ) < 100)]
    nlinarith [hround, hlog1, hlog2]

/-- C4 fails on the code: with stars 9, forks 0 and 10 open issues, the
score for days = 400 is 55 while the score for days = 100 is 105; 55 is not
half of 105, because the open-issue term is added after the halving and the
two-decimal rounding is applied last. -/
theorem activity_halving_counterexample :
    calculateSimpleActivityScore staleProbeRepo (some 400) ≠
      calculateSimpleActivityScore staleProbeRepo (some 100) / 2 := by
  have h400 : calculateSimpleActivityScore staleProbeRepo (some 400) = 55 := by
    have hraw : calculateSimpleActivityScoreRaw staleProbeRepo (some 400) = 55 := by
      simp only [calculateSimpleActivityScoreRaw, staleProbeRepo, pinnedRepo,
        Option.getD_some]
      norm_num [Real.logb_self_eq_one, min_def]
    unfold calculateSimpleActivityScore
    rw [hraw, show ((55 : ℝ) * 100) = ((5500 : ℤ) : ℝ) by norm_num, round_intCast]
    norm_num
  have h100 : calculateSimpleActivityScore staleProbeRepo (some 100) = 105 := by
    have hraw : calculateSimpleActivityScoreRaw staleProbeRepo (some 100) = 105 := by
      simp only [calculateSimpleActivityScoreRaw, staleProbeRepo, pinnedRepo,
        Option.getD_some]
      norm_num [Real.logb_self_eq_one, min_def]
    unfold calculateSimpleActivityScore
    rw [hraw, show ((105 : ℝ) * 100) = ((10500 : ℤ) : ℝ) by norm_num, round_intCast]
    norm_num
  rw [h400, h100]
  norm_num

/-- C4 (amended): the halving applies to the score accumulated before the
open-issue term, and the published score is rounded afterwards; so for two
inputs identical except for recency — one stale (days > 365), one with
neither bonus nor halving (90 < days ≤ 365) — the pre-rounding score of the
stale input is exactly half that of the other whenever the open-issue count
is zero. -/
theorem activity_halving_amended (repo : GitHubRepo) (dStale dFresh : Int)
    (hIssues : repo.issuesTotalCount.getD 0 = 0)
    (hStale : 365 < dStale) (hFresh1 : 90 < dFresh) (hFresh2 : dFresh ≤ 365) :
    calculateSimpleActivityScoreRaw repo (some dStale) =
      calculateSimpleActivityScoreRaw repo (some dFresh) / 2 := by
  simp only [calculateSimpleActivityScoreRaw, hIssues]
  split_ifs <;> first
    | (exfalso; omega)
    | (norm_num [min_def]; ring)

/-- Witness for the amended C4 at a concrete input: stars 9, forks 0, no
open issues, days 400 versus days 100. -/
theorem activity_halving_amended_witness :
    calculateSimpleActivityScoreRaw staleProbeRepoNoIssues (some 400) =
      calculateSimpleActivityScoreRaw staleProbeRepoNoIssues (some 100) / 2 :=
  activity_halving_amended staleProbeRepoNoIssues 400 100 (by decide) (by decide)
    (by decide) (by decide)

/-- C5: the commit-history fallback runs exactly when the primary REST
fetch fails with HTTP 403 and the recognizable too-large message fragment —
never on the status alone; any other failing primary fetch throws without
saving; and a fallback over an available history persists, with
`contributors_data_type = recent` and fallback type `User`, at most 30 rows
in descending contribution order whose counts are the per-author tallies
over at most the first 500 commits (5 pages of size 100), every tallied
author outside the saved rows having a count no larger than any saved row —
or persists nothing when those commits have no valid author. -/
theorem contributors_fallback_spec (p : PrimaryResult) (h : HistoryResult) :
    (∀ cs ft, fetchAndSaveContributors p h = .saved cs ft .recent →
      isTooLargeFailure p) ∧
    (∀ status message statusText, p = .httpError status message statusText →
      ¬ isTooLargeFailure p →
      ∃ m, fetchAndSaveContributors p h = .thrown m) ∧
    (isTooLargeFailure p → ∀ commits, h = .ok commits →
      ((commits.take 500).foldl tallyCommit [] = [] ∧
          fetchAndSaveContributors p h = .skippedNoSave) ∨
      (∃ rows, fetchAndSaveContributors p h = .saved rows (some "User") .recent ∧
          rows.length ≤ 30 ∧
          rows.Pairwise (fun a b => b.contributions ≤ a.contributions) ∧
          (∀ r ∈ rows, r.contributions = authorCount (commits.take 500) r.login ∧
            0 < r.contributions) ∧
          (∀ c ∈ (commits.take 500).foldl tallyCommit ([] : List GContributor),
            gqlToIncoming c ∈ rows ∨
              ∀ r ∈ rows, c.contributions ≤ r.contributions))) := by
  refine ⟨?_, ?_, ?_⟩
  · intro cs ft heq
    cases p with
    | ok cs0 => simp [fetchAndSaveContributors] at heq
    | httpError s m st =>
      by_cases htl : s = 403 ∧ includesSubstr m tooLargeMessage = true
      · exact htl
      · simp only [fetchAndSaveContributors, if_neg htl] at heq
        cases heq
  · intro s m st hp hn
    subst hp
    simp only [isTooLargeFailure] at hn
    exact ⟨"Failed to fetch contributors: " ++ toString s ++ " " ++ st,
      by simp only [fetchAndSaveContributors, if_neg hn]⟩
  · intro htl commits hh
    subst hh
    have htake : fallbackPageLoop 5 commits [] = (commits.take 500).foldl tallyCommit [] := by
      have h4 := fallbackPageLoop_eq 4 commits []
      norm_num at h4
      exact h4
    have hfb : fetchAndSaveContributors p (.ok commits) =
        fetchAndSaveRecentContributorsGraphQL (.ok commits) := by
      cases p with
      | ok cs0 => exact absurd htl (by simp [isTooLargeFailure])
      | httpError s m st =>
        simp only [isTooLargeFailure] at htl
        simp only [fetchAndSaveContributors, if_pos htl]
    have hinv := foldl_tallyCommit_invariant (commits.take 500) []
      (by simp) (by simp)
    by_cases hemp : (fallbackPageLoop 5 commits []).isEmpty
    · left
      refine ⟨by rw [← htake]; exact List.isEmpty_iff.mp hemp, ?_⟩
      rw [hfb]
      simp only [fetchAndSaveRecentContributorsGraphQL]
      rw [if_pos hemp]
    · right
      refine ⟨((((fallbackPageLoop 5 commits []).insertionSort contribGE).take 30).map
        gqlToIncoming), ?_, ?_, ?_, ?_, ?_⟩
      · rw [hfb]
        simp only [fetchAndSaveRecentContributorsGraphQL]
        rw [if_neg hemp]
      · rw [List.length_map, List.length_take]
        exact min_le_left _ _
      · rw [List.pairwise_map]
        have hs : List.Sorted contribGE
            ((fallbackPageLoop 5 commits []).insertionSort contribGE) :=
          List.sorted_insertionSort contribGE _
        exact (List.Pairwise.sublist (List.take_sublist _ _) hs).imp fun hab => hab
      · intro r hr
        rcases List.mem_map.mp hr with ⟨g, hg, rfl⟩
        have hgt : g ∈ fallbackPageLoop 5 commits [] :=
          (List.mem_insertionSort contribGE).mp (List.take_subset _ _ hg)
        rw [htake] at hgt
        have hcount : contribOf ((commits.take 500).foldl tallyCommit []) g.login =
            g.contributions := contribOf_of_mem hinv.1 hgt
        have hfold := contribOf_foldl_tallyCommit (commits.take 500) [] g.login
        simp only [contribOf] at hfold
        refine ⟨?_, hinv.2 g hgt⟩
        show (gqlToIncoming g).contributions = authorCount (commits.take 500)
          (gqlToIncoming g).login
        simp only [gqlToIncoming]
        omega
      · intro c hc
        have hcs : c ∈ (fallbackPageLoop 5 commits []).insertionSort contribGE := by
          rw [List.mem_insertionSort, htake]
          exact hc
        rw [← List.take_append_drop 30
          ((fallbackPageLoop 5 commits []).insertionSort contribGE)] at hcs
        rcases List.mem_append.mp hcs with hmem | hmem
        · exact Or.inl (List.mem_map_of_mem _ hmem)
        · right
          intro r hr
          rcases List.mem_map.mp hr with ⟨g, hg, rfl⟩
          have hs : List.Sorted contribGE
              ((fallbackPageLoop 5 commits []).insertionSort contribGE) :=
            List.sorted_insertionSort contribGE _
          rw [← List.take_append_drop 30
            ((fallbackPageLoop 5 commits []).insertionSort contribGE)] at hs
          have := (List.pairwise_append.mp hs).2.2 g hg c hmem
          exact this

/-- C6: after any sequence of contributor-refresh attempts, the persisted
`contributors_data_type` is `all_time` or `recent`, and it is `recent`
exactly when the most recent attempt that persisted anything used the
fallback (commit-history) path rather than the primary fetch. -/
theorem contributors_data_type_invariant (ops : List (PrimaryResult × HistoryResult)) :
    (contribDataTypeAfter ops = "all_time" ∨ contribDataTypeAfter ops = "recent") ∧
    (contribDataTypeAfter ops = "recent" ↔
      ∃ op, ops.reverse.find? refreshSaved = some op ∧
        refreshUsedFallback op = true) := by
  induction ops using List.reverseRecOn with
  | nil =>
    refine ⟨Or.inl rfl, ?_, ?_⟩
    · intro hcon
      exact absurd hcon (by decide)
    · rintro ⟨op, hop, -⟩
      simp [contribDataTypeAfter] at hop
  | append_singleton l op ih =>
    have hfold : contribDataTypeAfter (l ++ [op]) =
        applyContribRefresh (contribDataTypeAfter l) op := by
      simp [contribDataTypeAfter, List.foldl_append]
    have hrev : (l ++ [op]).reverse = op :: l.reverse := by simp
    cases hout : fetchAndSaveContributors op.1 op.2 with
    | saved cs ft dt =>
      have hsave : refreshSaved op = true := by simp [refreshSaved, hout]
      cases dt with
      | all_time =>
        have happ : applyContribRefresh (contribDataTypeAfter l) op = "all_time" := by
          simp [applyContribRefresh, hout]
        rw [hfold, happ, hrev, List.find?_cons_of_pos _ hsave]
        refine ⟨Or.inl rfl, ?_, ?_⟩
        · intro hcon
          exact absurd hcon (by decide)
        · rintro ⟨op', hop', hfb'⟩
          cases Option.some.inj hop'
          simp [refreshUsedFallback, hout] at hfb'
      | recent =>
        have happ : applyContribRefresh (contribDataTypeAfter l) op = "recent" := by
          simp [applyContribRefresh, hout]
        rw [hfold, happ, hrev, List.find?_cons_of_pos _ hsave]
        refine ⟨Or.inr rfl, ?_, ?_⟩
        · intro _
          exact ⟨op, rfl, by simp [refreshUsedFallback, hout]⟩
        · intro _
          rfl
    | skippedNoSave =>
      have hsave : refreshSaved op = false := by simp [refreshSaved, hout]
      have happ : applyContribRefresh (contribDataTypeAfter l) op =
          contribDataTypeAfter l := by
        simp [applyContribRefresh, hout]
      rw [hfold, happ, hrev, List.find?_cons_of_neg _ (by simp [hsave])]
      exact ih
    | fallbackFailed m =>
      have hsave : refreshSaved op = false := by simp [refreshSaved, hout]
      have happ : applyContribRefresh (contribDataTypeAfter l) op =
          contribDataTypeAfter l := by
        simp [applyContribRefresh, hout]
      rw [hfold, happ, hrev, List.find?_cons_of_neg _ (by simp [hsave])]
      exact ih
    | thrown m =>
      have hsave : refreshSaved op = false := by simp [refreshSaved, hout]
      have happ : applyContribRefresh (contribDataTypeAfter l) op =
          contribDataTypeAfter l := by
        simp [applyContribRefresh, hout]
      rw [hfold, happ, hrev, List.find?_cons_of_neg _ (by simp [hsave])]
      exact ih

theorem saveContributors_foldl (repoId : Nat) (ft : Option String) :
    ∀ (cs : List IncomingContributor) (acc : List ContributorRow),
      (∀ c ∈ cs, c.login ≠ "") →
      (cs.map IncomingContributor.id).Nodup →
      (∀ c ∈ cs, ∀ r ∈ acc, ¬(r.repository_id = repoId ∧ r.github_id = c.id)) →
      cs.foldl (fun acc c =>
          if c.login = "" then acc
          else upsertContributorRow acc (toContributorRow repoId ft c)) acc =
        acc ++ cs.map (toContributorRow repoId ft) := by
  intro cs
  induction cs with
  | nil => intro acc _ _ _; simp
  | cons c rest ih =>
    intro acc hlogin hnodup hfresh
    rw [List.foldl_cons, if_neg (hlogin c (by simp))]
    have hany : (acc.any (fun r =>
        r.repository_id == (toContributorRow repoId ft c).repository_id &&
          r.github_id == (toContributorRow repoId ft c).github_id)) = false := by
      by_contra hcon
      rw [Bool.not_eq_false] at hcon
      rcases List.any_eq_true.mp hcon with ⟨r, hr, hpr⟩
      simp only [toContributorRow, Bool.and_eq_true, beq_iff_eq] at hpr
      exact hfresh c (by simp) r hr ⟨hpr.1, hpr.2⟩
    rw [show upsertContributorRow acc (toContributorRow repoId ft c) =
        acc ++ [toContributorRow repoId ft c] by
      unfold upsertContributorRow
      rw [if_neg (by simp [hany])]]
    rw [ih (acc ++ [toContributorRow repoId ft c])
      (fun c' hc' => hlogin c' (List.mem_cons_of_mem _ hc'))
      (by
        rw [List.map_cons, List.nodup_cons] at hnodup
        exact hnodup.2)
      ?_]
    · simp
    · intro c' hc' r hr
      rcases List.mem_append.mp hr with hr2 | hr2
      · exact hfresh c' (List.mem_cons_of_mem _ hc') r hr2
      · simp only [List.mem_singleton] at hr2
        subst hr2
        rintro ⟨-, hid⟩
        simp only [toContributorRow] at hid
        rw [List.map_cons, List.nodup_cons] at hnodup
        apply hnodup.1
        rw [hid]
        exact List.mem_map_of_mem _ hc'

theorem saveCommitActivity_foldl (repoId : Nat) :
    ∀ (weeks : List ActivityWeek) (acc : List CommitActivityRow),
      (weeks.map ActivityWeek.week).Nodup →
      (∀ w ∈ weeks, ∀ r ∈ acc,
        ¬(r.repository_id = repoId ∧ r.week_timestamp = w.week)) →
      weeks.foldl
          (fun acc w => upsertCommitActivityRow acc (toCommitActivityRow repoId w))
          acc =
        acc ++ weeks.map (toCommitActivityRow repoId) := by
  intro weeks
  induction weeks with
  | nil => intro acc _ _; simp
  | cons w rest ih =>
    intro acc hnodup hfresh
    rw [List.foldl_cons]
    have hany : (acc.any (fun r =>
        r.repository_id == (toCommitActivityRow repoId w).repository_id &&
          r.week_timestamp == (toCommitActivityRow repoId w).week_timestamp)) = false := by
      by_contra hcon
      rw [Bool.not_eq_false] at hcon
      rcases List.any_eq_true.mp hcon with ⟨r, hr, hpr⟩
      simp only [toCommitActivityRow, Bool.and_eq_true, beq_iff_eq] at hpr
      exact hfresh w (by simp) r hr ⟨hpr.1, hpr.2⟩
    rw [show upsertCommitActivityRow acc (toCommitActivityRow repoId w) =
        acc ++ [toCommitActivityRow repoId w] by
      unfold upsertCommitActivityRow
      rw [if_neg (by simp [hany])]]
    rw [ih (acc ++ [toCommitActivityRow repoId w])
      (by
        rw [List.map_cons, List.nodup_cons] at hnodup
        exact hnodup.2)
      ?_]
    · simp
    · intro w' hw' r hr
      rcases List.mem_append.mp hr with hr2 | hr2
      · exact hfresh w' (List.mem_cons_of_mem _ hw') r hr2
      · simp only [List.mem_singleton] at hr2
        subst hr2
        rintro ⟨-, hid⟩
        simp only [toCommitActivityRow] at hid
        rw [List.map_cons, List.nodup_cons] at hnodup
        apply hnodup.1
        rw [hid]
        exact List.mem_map_of_mem _ hw'

/-- C7: a successful contributor refresh, and a successful non-empty
commit-activity refresh, each replace the stored per-repository set
exactly: afterwards the repository's rows are precisely the rows of the
freshly fetched list (no row of a previous refresh survives), and rows of
every other repository are untouched. -/
theorem refresh_replaces_stored_set
    (ctable : List ContributorRow) (repoId : Nat)
    (cs : List IncomingContributor) (ft : Option String)
    (atable atable2 : List CommitActivityRow) (status : Nat)
    (weeks : List ActivityWeek)
    (hlogin : ∀ c ∈ cs, c.login ≠ "")
    (hids : (cs.map IncomingContributor.id).Nodup)
    (hweeks : (weeks.map ActivityWeek.week).Nodup)
    (hok : 200 ≤ status ∧ status < 300) (hne : weeks ≠ [])
    (hres : fetchAndSaveCommitActivity atable repoId status (some weeks) =
      .ok atable2) :
    ((saveContributorsToDB ctable repoId cs ft).filter
          (fun r => r.repository_id == repoId) =
        cs.map (toContributorRow repoId ft) ∧
      (saveContributorsToDB ctable repoId cs ft).filter
          (fun r => r.repository_id != repoId) =
        ctable.filter (fun r => r.repository_id != repoId)) ∧
    (atable2.filter (fun r => r.repository_id == repoId) =
        weeks.map (toCommitActivityRow repoId) ∧
      atable2.filter (fun r => r.repository_id != repoId) =
        atable.filter (fun r => r.repository_id != repoId)) := by
  constructor
  · have hfresh : ∀ c ∈ cs, ∀ r ∈ ctable.filter (fun r => r.repository_id != repoId),
        ¬(r.repository_id = repoId ∧ r.github_id = c.id) := by
      intro c _ r hr hcon
      have := (List.mem_filter.mp hr).2
      simp only [bne_iff_ne, ne_eq] at this
      exact this hcon.1
    unfold saveContributorsToDB
    rw [saveContributors_foldl repoId ft cs _ hlogin hids hfresh]
    rw [List.filter_append, List.filter_append]
    constructor
    · have h1 : (ctable.filter (fun r => r.repository_id != repoId)).filter
          (fun r => r.repository_id == repoId) = [] := by
        refine List.filter_eq_nil_iff.mpr fun r hr hpr => ?_
        have h2 := (List.mem_filter.mp hr).2
        simp only [bne_iff_ne, ne_eq] at h2
        exact h2 (by simpa using hpr)
      have h2 : (cs.map (toContributorRow repoId ft)).filter
          (fun r => r.repository_id == repoId) =
            cs.map (toContributorRow repoId ft) := by
        refine List.filter_eq_self.mpr fun r hr => ?_
        rcases List.mem_map.mp hr with ⟨c, -, rfl⟩
        simp [toContributorRow]
      rw [h1, h2, List.nil_append]
    · have h1 : (ctable.filter (fun r => r.repository_id != repoId)).filter
          (fun r => r.repository_id != repoId) =
            ctable.filter (fun r => r.repository_id != repoId) :=
        List.filter_eq_self.mpr fun r hr => (List.mem_filter.mp hr).2
      have h2 : (cs.map (toContributorRow repoId ft)).filter
          (fun r => r.repository_id != repoId) = [] := by
        refine List.filter_eq_nil_iff.mpr fun r hr hpr => ?_
        rcases List.mem_map.mp hr with ⟨c, -, rfl⟩
        simp [toContributorRow] at hpr
      rw [h1, h2, List.append_nil]
  · have hfresh : ∀ w ∈ weeks, ∀ r ∈ atable.filter (fun r => r.repository_id != repoId),
        ¬(r.repository_id = repoId ∧ r.week_timestamp = w.week) := by
      intro w _ r hr hcon
      have := (List.mem_filter.mp hr).2
      simp only [bne_iff_ne, ne_eq] at this
      exact this hcon.1
    have hempty : weeks.isEmpty = false := by
      cases weeks with
      | nil => exact absurd rfl hne
      | cons w ws => rfl
    have hcalc : atable2 = (atable.filter (fun r => r.repository_id != repoId)) ++
        weeks.map (toCommitActivityRow repoId) := by
      simp only [fetchAndSaveCommitActivity, hok.1, hok.2, hempty, and_self,
        not_true_eq_false, if_false, Bool.false_eq_true, Except.ok.injEq] at hres
      rw [← hres]
      exact saveCommitActivity_foldl repoId weeks _ hweeks hfresh
    rw [hcalc, List.filter_append, List.filter_append]
    constructor
    · have h1 : (atable.filter (fun r => r.repository_id != repoId)).filter
          (fun r => r.repository_id == repoId) = [] := by
        refine List.filter_eq_nil_iff.mpr fun r hr hpr => ?_
        have h2 := (List.mem_filter.mp hr).2
        simp only [bne_iff_ne, ne_eq] at h2
        exact h2 (by simpa using hpr)
      have h2 : (weeks.map (toCommitActivityRow repoId)).filter
          (fun r => r.repository_id == repoId) =
            weeks.map (toCommitActivityRow repoId) := by
        refine List.filter_eq_self.mpr fun r hr => ?_
        rcases List.mem_map.mp hr with ⟨w, -, rfl⟩
        simp [toCommitActivityRow]
      rw [h1, h2, List.nil_append]
    · have h1 : (atable.filter (fun r => r.repository_id != repoId)).filter
          (fun r => r.repository_id != repoId) =
            atable.filter (fun r => r.repository_id != repoId) :=
        List.filter_eq_self.mpr fun r hr => (List.mem_filter.mp hr).2
      have h2 : (weeks.map (toCommitActivityRow repoId)).filter
          (fun r => r.repository_id != repoId) = [] := by
        refine List.filter_eq_nil_iff.mpr fun r hr hpr => ?_
        rcases List.mem_map.mp hr with ⟨w, -, rfl⟩
        simp [toCommitActivityRow] at hpr
      rw [h1, h2, List.append_nil]

/-- Witness for C7 at a concrete input: one fetched contributor and one
activity week over empty tables. -/
theorem refresh_replaces_stored_set_witness :
    ((saveContributorsToDB [] 1 [sampleIncoming] (some "User")).filter
          (fun r => r.repository_id == 1) =
        [sampleIncoming].map (toContributorRow 1 (some "User")) ∧
      (saveContributorsToDB [] 1 [sampleIncoming] (some "User")).filter
          (fun r => r.repository_id != 1) =
        List.filter (fun r => r.repository_id != 1) []) ∧
    (([toCommitActivityRow 1 sampleWeek] : List CommitActivityRow).filter
          (fun r => r.repository_id == 1) =
        [sampleWeek].map (toCommitActivityRow 1) ∧
      ([toCommitActivityRow 1 sampleWeek] : List CommitActivityRow).filter
          (fun r => r.repository_id != 1) =
        List.filter (fun r => r.repository_id != 1) []) :=
  refresh_replaces_stored_set [] 1 [sampleIncoming] (some "User") []
    [toCommitActivityRow 1 sampleWeek] 200 [sampleWeek]
    (by decide) (by decide) (by decide) (by decide) (by decide) rfl

theorem repoKeyLT_asymm {a b : RepoKey} (h : repoKeyLT a b) : ¬ repoKeyLT b a := by
  unfold repoKeyLT at *; omega

theorem repoKeyLT_irrefl (a : RepoKey) : ¬ repoKeyLT a a := by
  unfold repoKeyLT; omega

theorem strict_of_sorted_nodup {S : List RepoKey} (hs : List.Sorted repoKeyGE S)
    (hn : S.Nodup) : S.Pairwise (fun a b => repoKeyLT b a) := by
  refine (hs.and hn).imp ?_
  rintro a b ⟨hge, hne⟩
  have hfields : ¬ (a.stars = b.stars ∧ a.id = b.id) := by
    rintro ⟨h1, h2⟩
    apply hne
    cases a; cases b
    simp only [RepoKey.mk.injEq]
    exact ⟨h1, h2⟩
  unfold repoKeyGE at hge
  unfold repoKeyLT
  omega

theorem filter_lt_of_split (A B : List RepoKey) (c : RepoKey)
    (hstrict : (A ++ B).Pairwise (fun a b => repoKeyLT b a))
    (hA : A.getLast? = some c) :
    (A ++ B).filter (fun r => decide (repoKeyLT r c)) = B := by
  rcases List.getLast?_eq_some_iff.mp hA with ⟨A', rfl⟩
  rw [List.filter_append]
  have h1 : (A' ++ [c]).filter (fun r => decide (repoKeyLT r c)) = [] := by
    refine List.filter_eq_nil_iff.mpr fun r hr hpr => ?_
    have hlt : repoKeyLT r c := of_decide_eq_true hpr
    rcases List.mem_append.mp hr with hr2 | hr2
    · have hAp : (A' ++ [c]).Pairwise (fun a b => repoKeyLT b a) :=
        (List.pairwise_append.mp hstrict).1
      have hcr := (List.pairwise_append.mp hAp).2.2 r hr2 c (by simp)
      exact repoKeyLT_asymm hcr hlt
    · simp only [List.mem_singleton] at hr2
      subst hr2
      exact repoKeyLT_irrefl r hlt
  have h2 : B.filter (fun r => decide (repoKeyLT r c)) = B := by
    refine List.filter_eq_self.mpr fun r hr => ?_
    have hcr := (List.pairwise_append.mp hstrict).2.2 c (by simp) r hr
    exact decide_eq_true hcr
  rw [h1, h2, List.nil_append]

/-- C8: for every stored repository set with unique ids and every page
size, for two consecutive pages of `GET /api/repos/top` — the first without
a cursor, the second through the compound cursor `(lastStars, lastId)`
taken from the first page's last row — no repository appears in both pages,
no repository strictly between the first page's last row and the second
page's first row (in the descending `(stars, id)` order) exists to be
skipped, and together the pages are exactly the first `2·limit` rows of the
full ordering, ties on stars included. -/
theorem pagination_cursor_correct (db : List RepoKey) (limit : Nat) (c : RepoKey)
    (hids : (db.map RepoKey.id).Nodup) (hpos : 0 < limit)
    (hc : (topReposQuery db none limit).getLast? = some c) :
    (∀ r ∈ topReposQuery db none limit, r ∉ topReposQuery db (some c) limit) ∧
    (∀ r ∈ db, repoKeyLT r c →
      (∀ h2, (topReposQuery db (some c) limit).head? = some h2 → repoKeyLT h2 r) →
      False) ∧
    topReposQuery db none limit ++ topReposQuery db (some c) limit =
      (db.insertionSort repoKeyGE).take (limit + limit) := by
  have hdbnodup : db.Nodup := hids.of_map
  have hSsorted : List.Sorted repoKeyGE (db.insertionSort repoKeyGE) :=
    List.sorted_insertionSort repoKeyGE db
  have hSnodup : (db.insertionSort repoKeyGE).Nodup :=
    (List.perm_insertionSort repoKeyGE db).nodup_iff.mpr hdbnodup
  have hstrict := strict_of_sorted_nodup hSsorted hSnodup
  have hpage1 : topReposQuery db none limit =
      (db.insertionSort repoKeyGE).take limit := rfl
  have hc' : ((db.insertionSort repoKeyGE).take limit).getLast? = some c := hc
  have hfs : (db.filter (fun r => decide (repoKeyLT r c))).insertionSort repoKeyGE =
      (db.insertionSort repoKeyGE).filter (fun r => decide (repoKeyLT r c)) := by
    refine List.eq_of_perm_of_sorted ?_ (List.sorted_insertionSort _ _)
      (hSsorted.filter _)
    exact (List.perm_insertionSort _ _).trans
      (((List.perm_insertionSort repoKeyGE db).symm).filter _)
  have hfilter : (db.insertionSort repoKeyGE).filter
      (fun r => decide (repoKeyLT r c)) = (db.insertionSort repoKeyGE).drop limit := by
    have hsplit := List.take_append_drop limit (db.insertionSort repoKeyGE)
    have hkey := filter_lt_of_split ((db.insertionSort repoKeyGE).take limit)
      ((db.insertionSort repoKeyGE).drop limit) c (by rw [hsplit]; exact hstrict) hc'
    rw [hsplit] at hkey
    exact hkey
  have hpage2 : topReposQuery db (some c) limit =
      ((db.insertionSort repoKeyGE).drop limit).take limit := by
    show ((db.filter _).insertionSort repoKeyGE).take limit = _
    rw [hfs, hfilter]
  refine ⟨?_, ?_, ?_⟩
  · intro r hr1 hr2
    rw [hpage1] at hr1
    rw [hpage2] at hr2
    have hrd : r ∈ (db.insertionSort repoKeyGE).drop limit := List.take_subset _ _ hr2
    have hnd := hSnodup
    rw [← List.take_append_drop limit (db.insertionSort repoKeyGE)] at hnd
    exact (List.nodup_append.mp hnd).2.2 hr1 hrd
  · intro r hrdb hrlt hhead
    have hrS : r ∈ db.insertionSort repoKeyGE :=
      (List.mem_insertionSort repoKeyGE).mpr hrdb
    have hrB : r ∈ (db.insertionSort repoKeyGE).drop limit := by
      rw [← hfilter]
      exact List.mem_filter.mpr ⟨hrS, decide_eq_true hrlt⟩
    cases hB : (db.insertionSort repoKeyGE).drop limit with
    | nil => rw [hB] at hrB; cases hrB
    | cons hd tl =>
      have hhd : (topReposQuery db (some c) limit).head? = some hd := by
        rw [hpage2, hB]
        cases limit with
        | zero => omega
        | succ m => rfl
      have hlt2 := hhead hd hhd
      rw [hB] at hrB
      rcases List.mem_cons.mp hrB with rfl | hmem
      · exact repoKeyLT_irrefl r hlt2
      · have hBstrict : ((db.insertionSort repoKeyGE).drop limit).Pairwise
            (fun a b => repoKeyLT b a) := hstrict.sublist (List.drop_sublist _ _)
        rw [hB] at hBstrict
        have hlt3 := (List.pairwise_cons.mp hBstrict).1 r hmem
        exact repoKeyLT_asymm hlt3 hlt2
  · rw [hpage1, hpage2]
    exact (List.take_add _ _ _).symm

/-- Witness for C8 at a concrete input: four repositories, three tied at 5
stars, page size 2; the cursor after page one is `(5, 2)`. -/
theorem pagination_cursor_correct_witness :
    (∀ r ∈ topReposQuery sampleRepoKeys none 2,
      r ∉ topReposQuery sampleRepoKeys (some { stars := 5, id := 2 }) 2) ∧
    (∀ r ∈ sampleRepoKeys, repoKeyLT r { stars := 5, id := 2 } →
      (∀ h2, (topReposQuery sampleRepoKeys (some { stars := 5, id := 2 }) 2).head? =
        some h2 → repoKeyLT h2 r) → False) ∧
    topReposQuery sampleRepoKeys none 2 ++
        topReposQuery sampleRepoKeys (some { stars := 5, id := 2 }) 2 =
      (sampleRepoKeys.insertionSort repoKeyGE).take (2 + 2) :=
  pagination_cursor_correct sampleRepoKeys 2 { stars := 5, id := 2 }
    (by decide) (by decide) (by decide)

theorem upsertRepository_flags {table : List RepositoryRow} (repo : GitHubRepo)
    (h : ∀ r ∈ table, r.has_downloads = true ∧ r.has_pages = false) :
    ∀ r ∈ upsertRepository table repo,
      r.has_downloads = true ∧ r.has_pages = false := by
  unfold upsertRepository
  split
  · intro r hr
    rcases List.mem_map.mp hr with ⟨d, hd, rfl⟩
    by_cases h2 : (d.github_id == repo.databaseId) = true
    · simp only [if_pos h2]
      exact ⟨(h d hd).1, rfl⟩
    · simp only [if_neg h2]
      exact h d hd
  · intro r hr
    rcases List.mem_append.mp hr with hr2 | hr2
    · exact h r hr2
    · simp only [List.mem_singleton] at hr2
      subst hr2
      exact ⟨rfl, rfl⟩

theorem batchSave_flags (repos : List GitHubRepo) :
    ∀ db : DBState,
      (∀ r ∈ db.repositories, r.has_downloads = true ∧ r.has_pages = false) →
      ∀ r ∈ (batchSaveRepositories db repos).repositories,
        r.has_downloads = true ∧ r.has_pages = false := by
  induction repos with
  | nil => exact fun db h => h
  | cons p rest ih =>
    intro db h
    exact ih (saveRepositoryWithLanguages db p) (upsertRepository_flags p h)

/-- C10: every repository row persisted by sync batches — on first insert
and on every resync — stores `has_downloads = true` and
`has_pages = false`, independent of the upstream snapshot. -/
theorem has_downloads_has_pages_constant (pages : List (List GitHubRepo)) :
    ∀ r ∈ (runSyncBatches pages).repositories,
      r.has_downloads = true ∧ r.has_pages = false := by
  unfold runSyncBatches
  suffices h : ∀ db : DBState,
      (∀ r ∈ db.repositories, r.has_downloads = true ∧ r.has_pages = false) →
      ∀ r ∈ (pages.foldl batchSaveRepositories db).repositories,
        r.has_downloads = true ∧ r.has_pages = false by
    exact h emptyDB (by intro r hr; cases hr)
  induction pages with
  | nil => exact fun db h => h
  | cons page rest ih =>
    intro db h
    exact ih (batchSaveRepositories db page) (batchSave_flags page db h)

/-- Witness for C10 at a concrete input: the row persisted for the probe
snapshot has the two constant flags. -/
theorem has_downloads_has_pages_constant_witness :
    (insertRepositoryRow resyncProbeOld).has_downloads = true ∧
      (insertRepositoryRow resyncProbeOld).has_pages = false :=
  has_downloads_has_pages_constant [[resyncProbeOld]]
    (insertRepositoryRow resyncProbeOld) (by decide)

/-! ### Resync idempotence: the repositories table -/

theorem updateRepositoryRow_idem (old : RepositoryRow) (repo : GitHubRepo) :
    updateRepositoryRow (updateRepositoryRow old repo) repo =
      updateRepositoryRow old repo := rfl

theorem updateRepositoryRow_insert (repo : GitHubRepo) :
    updateRepositoryRow (insertRepositoryRow repo) repo =
      insertRepositoryRow repo := rfl

theorem upsertRepository_of_synced {table : List RepositoryRow} {repo : GitHubRepo}
    (hex : table.any (fun r => r.github_id == repo.databaseId) = true)
    (hsync : ∀ r ∈ table, r.github_id = repo.databaseId →
      updateRepositoryRow r repo = r) :
    upsertRepository table repo = table := by
  unfold upsertRepository
  rw [if_pos hex]
  conv_rhs => rw [← List.map_id table]
  refine List.map_congr_left fun r hr => ?_
  by_cases hid : (r.github_id == repo.databaseId) = true
  · rw [if_pos hid]
    exact hsync r hr (by simpa using hid)
  · rw [if_neg hid]
    rfl

theorem upsertRepository_synced (table : List RepositoryRow) (repo : GitHubRepo) :
    ∀ r ∈ upsertRepository table repo, r.github_id = repo.databaseId →
      updateRepositoryRow r repo = r := by
  unfold upsertRepository
  by_cases hany : (table.any (fun r => r.github_id == repo.databaseId)) = true
  · rw [if_pos hany]
    intro r hr hid
    rcases List.mem_map.mp hr with ⟨d, hd, rfl⟩
    by_cases h2 : (d.github_id == repo.databaseId) = true
    · simp only [if_pos h2]
      exact updateRepositoryRow_idem d repo
    · simp only [if_neg h2] at hid ⊢
      exact absurd (beq_iff_eq.mpr hid) h2
  · rw [if_neg hany]
    intro r hr hid
    rcases List.mem_append.mp hr with hr2 | hr2
    · refine absurd ?_ hany
      exact List.any_eq_true.mpr ⟨r, hr2, beq_iff_eq.mpr hid⟩
    · simp only [List.mem_singleton] at hr2
      subst hr2
      exact updateRepositoryRow_insert repo

theorem upsertRepository_any_self (table : List RepositoryRow) (repo : GitHubRepo) :
    (upsertRepository table repo).any
      (fun r => r.github_id == repo.databaseId) = true := by
  unfold upsertRepository
  by_cases hany : (table.any (fun r => r.github_id == repo.databaseId)) = true
  · rw [if_pos hany]
    rcases List.any_eq_true.mp hany with ⟨d, hd, hpd⟩
    refine List.any_eq_true.mpr ⟨_, List.mem_map_of_mem _ hd, ?_⟩
    by_cases h2 : (d.github_id == repo.databaseId) = true
    · simp only [if_pos h2]
      exact hpd
    · simp only [if_neg h2]
      exact hpd
  · rw [if_neg hany]
    exact List.any_eq_true.mpr
      ⟨insertRepositoryRow repo, by simp, beq_iff_eq.mpr rfl⟩

theorem upsertRepository_preserves_any (table : List RepositoryRow)
    (p : GitHubRepo) (g : Nat)
    (h : table.any (fun r => r.github_id == g) = true) :
    (upsertRepository table p).any (fun r => r.github_id == g) = true := by
  unfold upsertRepository
  split
  · rcases List.any_eq_true.mp h with ⟨d, hd, hpd⟩
    refine List.any_eq_true.mpr ⟨_, List.mem_map_of_mem _ hd, ?_⟩
    by_cases h2 : (d.github_id == p.databaseId) = true
    · simp only [if_pos h2]
      exact hpd
    · simp only [if_neg h2]
      exact hpd
  · rcases List.any_eq_true.mp h with ⟨d, hd, hpd⟩
    exact List.any_eq_true.mpr ⟨d, List.mem_append_left _ hd, hpd⟩

theorem upsertRepository_preserves_synced (table : List RepositoryRow)
    (p repo : GitHubRepo) (hne : p.databaseId ≠ repo.databaseId)
    (hsync : ∀ r ∈ table, r.github_id = repo.databaseId →
      updateRepositoryRow r repo = r) :
    ∀ r ∈ upsertRepository table p, r.github_id = repo.databaseId →
      updateRepositoryRow r repo = r := by
  unfold upsertRepository
  split
  · intro r hr hid
    rcases List.mem_map.mp hr with ⟨d, hd, rfl⟩
    by_cases h2 : (d.github_id == p.databaseId) = true
    · simp only [if_pos h2] at hid ⊢
      have hid' : d.github_id = repo.databaseId := hid
      exact absurd ((beq_iff_eq.mp h2).symm.trans hid') hne
    · simp only [if_neg h2] at hid ⊢
      exact hsync d hd hid
  · intro r hr hid
    rcases List.mem_append.mp hr with hr2 | hr2
    · exact hsync r hr2 hid
    · simp only [List.mem_singleton] at hr2
      subst hr2
      have hid' : p.databaseId = repo.databaseId := hid
      exact absurd hid' hne

theorem foldU_preserves_any (rest : List GitHubRepo) :
    ∀ (table : List RepositoryRow) (g : Nat),
      table.any (fun r => r.github_id == g) = true →
      (rest.foldl upsertRepository table).any (fun r => r.github_id == g) = true := by
  induction rest with
  | nil => exact fun table g h => h
  | cons q tail ih =>
    intro table g h
    exact ih _ g (upsertRepository_preserves_any table q g h)

theorem foldU_preserves_synced (rest : List GitHubRepo) :
    ∀ (table : List RepositoryRow) (repo : GitHubRepo),
      (∀ q ∈ rest, q.databaseId ≠ repo.databaseId) →
      (∀ r ∈ table, r.github_id = repo.databaseId →
        updateRepositoryRow r repo = r) →
      ∀ r ∈ rest.foldl upsertRepository table, r.github_id = repo.databaseId →
        updateRepositoryRow r repo = r := by
  induction rest with
  | nil => exact fun table repo _ h => h
  | cons q tail ih =>
    intro table repo hne h
    exact ih _ repo (fun q' hq' => hne q' (List.mem_cons_of_mem _ hq'))
      (upsertRepository_preserves_synced table q repo (hne q (by simp)) h)

theorem foldU_establishes (page : List GitHubRepo) :
    ∀ table : List RepositoryRow, (page.map GitHubRepo.databaseId).Nodup →
      ∀ p ∈ page,
        ((page.foldl upsertRepository table).any
            (fun r => r.github_id == p.databaseId) = true) ∧
          ∀ r ∈ page.foldl upsertRepository table, r.github_id = p.databaseId →
            updateRepositoryRow r p = r := by
  induction page with
  | nil => intro table _ p hp; cases hp
  | cons q rest ih =>
    intro table hnodup p hp
    rw [List.map_cons, List.nodup_cons] at hnodup
    rcases List.mem_cons.mp hp with rfl | hmem
    · constructor
      · exact foldU_preserves_any rest _ _ (upsertRepository_any_self table p)
      · refine foldU_preserves_synced rest _ p ?_ (upsertRepository_synced table p)
        intro q' hq' he
        exact hnodup.1 (he ▸ List.mem_map_of_mem _ hq')
    · exact ih (upsertRepository table q) hnodup.2 p hmem

theorem foldU_idem (page : List GitHubRepo) :
    ∀ table : List RepositoryRow,
      (∀ p ∈ page,
        table.any (fun r => r.github_id == p.databaseId) = true ∧
          ∀ r ∈ table, r.github_id = p.databaseId →
            updateRepositoryRow r p = r) →
      page.foldl upsertRepository table = table := by
  induction page with
  | nil => intro table _; rfl
  | cons q rest ih =>
    intro table h
    rw [List.foldl_cons,
      upsertRepository_of_synced (h q (by simp)).1 (h q (by simp)).2]
    exact ih table fun p hp => h p (List.mem_cons_of_mem _ hp)

theorem foldU_twice (page : List GitHubRepo) (table : List RepositoryRow)
    (hnodup : (page.map GitHubRepo.databaseId).Nodup) :
    page.foldl upsertRepository (page.foldl upsertRepository table) =
      page.foldl upsertRepository table :=
  foldU_idem page _ (foldU_establishes page table hnodup)

theorem foldU_any_all (page : List GitHubRepo) :
    ∀ table : List RepositoryRow, ∀ p ∈ page,
      (page.foldl upsertRepository table).any
        (fun r => r.github_id == p.databaseId) = true := by
  induction page with
  | nil => intro table p hp; cases hp
  | cons q rest ih =>
    intro table p hp
    rcases List.mem_cons.mp hp with rfl | hmem
    · exact foldU_preserves_any rest _ _ (upsertRepository_any_self table p)
    · exact ih (upsertRepository table q) p hmem

/-! ### Resync idempotence: the repository_languages table -/

theorem upsertLanguageRow_append (B C : List RepositoryLanguageRow)
    (row : RepositoryLanguageRow)
    (hB : ∀ r ∈ B, r.repository_id ≠ row.repository_id) :
    upsertLanguageRow (B ++ C) row = B ++ upsertLanguageRow C row := by
  unfold upsertLanguageRow
  have hBfalse : (B.any (fun r => r.repository_id == row.repository_id &&
      r.language_name == row.language_name)) = false := by
    by_contra hcon
    rw [Bool.not_eq_false] at hcon
    rcases List.any_eq_true.mp hcon with ⟨r, hr, hpr⟩
    simp only [Bool.and_eq_true, beq_iff_eq] at hpr
    exact hB r hr hpr.1
  rw [List.any_append, hBfalse, Bool.false_or]
  by_cases hany : (C.any (fun r => r.repository_id == row.repository_id &&
      r.language_name == row.language_name)) = true
  · rw [if_pos hany, if_pos hany, List.map_append]
    congr 1
    conv_rhs => rw [← List.map_id B]
    refine List.map_congr_left fun r hr => ?_
    have hcond : ¬ (r.repository_id == row.repository_id &&
        r.language_name == row.language_name) = true := by
      simp only [Bool.and_eq_true, beq_iff_eq, not_and]
      intro he
      exact absurd he (hB r hr)
    rw [if_neg hcond]
    rfl
  · rw [if_neg hany, if_neg hany, List.append_assoc]

theorem langFold_split (repo : GitHubRepo) (edges : List (String × Nat)) :
    ∀ B C : List RepositoryLanguageRow,
      (∀ r ∈ B, r.repository_id ≠ repo.databaseId) →
      edges.foldl (fun acc lang => upsertLanguageRow acc (toLanguageRow repo lang))
          (B ++ C) =
        B ++ edges.foldl
          (fun acc lang => upsertLanguageRow acc (toLanguageRow repo lang)) C := by
  induction edges with
  | nil => intro B C _; rfl
  | cons e rest ih =>
    intro B C hB
    rw [List.foldl_cons, List.foldl_cons, upsertLanguageRow_append B C _ hB]
    exact ih B _ hB

theorem langFold_ids (repo : GitHubRepo) (edges : List (String × Nat)) :
    ∀ C : List RepositoryLanguageRow,
      (∀ r ∈ C, r.repository_id = repo.databaseId) →
      ∀ r ∈ edges.foldl
          (fun acc lang => upsertLanguageRow acc (toLanguageRow repo lang)) C,
        r.repository_id = repo.databaseId := by
  induction edges with
  | nil => exact fun C h => h
  | cons e rest ih =>
    intro C h
    rw [List.foldl_cons]
    refine ih _ ?_
    unfold upsertLanguageRow
    split
    · intro r hr
      rcases List.mem_map.mp hr with ⟨d, hd, rfl⟩
      by_cases h2 : (d.repository_id == (toLanguageRow repo e).repository_id &&
          d.language_name == (toLanguageRow repo e).language_name) = true
      · simp only [if_pos h2]
        exact h d hd
      · simp only [if_neg h2]
        exact h d hd
    · intro r hr
      rcases List.mem_append.mp hr with hr2 | hr2
      · exact h r hr2
      · simp only [List.mem_singleton] at hr2
        subst hr2
        rfl

theorem replaceLanguages_char (table : List RepositoryLanguageRow)
    (repo : GitHubRepo) (h : repo.languagesEdges.isEmpty = false) :
    replaceLanguages table repo =
      table.filter (fun r => r.repository_id != repo.databaseId) ++ langBlock repo := by
  unfold replaceLanguages langBlock
  rw [if_neg (by simp [h])]
  conv_lhs =>
    rw [show table.filter (fun r => r.repository_id != repo.databaseId) =
      table.filter (fun r => r.repository_id != repo.databaseId) ++ [] from
      (List.append_nil _).symm]
  refine langFold_split repo repo.languagesEdges _ [] fun r hr => ?_
  have h2 := (List.mem_filter.mp hr).2
  simpa using h2

theorem foldLang_char (page : List GitHubRepo) :
    ∀ table : List RepositoryLanguageRow,
      (page.map GitHubRepo.databaseId).Nodup →
      page.foldl replaceLanguages table =
        table.filter
            (fun row => !(langTouchedIds page).contains row.repository_id) ++
          ((page.filter (fun p => !p.languagesEdges.isEmpty)).map langBlock).flatten := by
  induction page with
  | nil =>
    intro table _
    simp [langTouchedIds]
  | cons q rest ih =>
    intro table hnodup
    rw [List.map_cons, List.nodup_cons] at hnodup
    rw [List.foldl_cons]
    by_cases hq : q.languagesEdges.isEmpty = true
    · have h1 : replaceLanguages table q = table := by
        unfold replaceLanguages
        rw [if_pos hq]
      have h2 : langTouchedIds (q :: rest) = langTouchedIds rest := by
        unfold langTouchedIds
        rw [List.filter_cons_of_neg (by simp [hq])]
      have h3 : (q :: rest).filter (fun p => !p.languagesEdges.isEmpty) =
          rest.filter (fun p => !p.languagesEdges.isEmpty) :=
        List.filter_cons_of_neg (by simp [hq])
      rw [h1, ih table hnodup.2, h2, h3]
    · have hq' : q.languagesEdges.isEmpty = false := by simpa using hq
      rw [replaceLanguages_char table q hq', ih _ hnodup.2]
      have h2 : langTouchedIds (q :: rest) =
          q.databaseId :: langTouchedIds rest := by
        unfold langTouchedIds
        rw [List.filter_cons_of_pos (by simp [hq']), List.map_cons]
      have h3 : (langBlock q).filter
          (fun row => !(langTouchedIds rest).contains row.repository_id) =
            langBlock q := by
        refine List.filter_eq_self.mpr fun r hr => ?_
        have hid : r.repository_id = q.databaseId :=
          langFold_ids q q.languagesEdges [] (fun r h => by cases h) r hr
        have hmem : q.databaseId ∉ langTouchedIds rest := by
          intro hin
          apply hnodup.1
          unfold langTouchedIds at hin
          rcases List.mem_map.mp hin with ⟨p, hp, he⟩
          have hp2 : p ∈ rest := List.mem_of_mem_filter hp
          exact he ▸ List.mem_map_of_mem _ hp2
        rw [hid]
        simp [hmem]
      have h4 : (table.filter (fun r => r.repository_id != q.databaseId)).filter
          (fun row => !(langTouchedIds rest).contains row.repository_id) =
            table.filter
              (fun row => !(langTouchedIds (q :: rest)).contains row.repository_id) := by
        rw [List.filter_filter, h2]
        refine List.filter_congr fun row hrow => ?_
        simp only [List.contains_cons, Bool.not_or, bne]
        rw [Bool.and_comm]
      have h5 : (q :: rest).filter (fun p => !p.languagesEdges.isEmpty) =
          q :: rest.filter (fun p => !p.languagesEdges.isEmpty) :=
        List.filter_cons_of_pos (by simp [hq'])
      rw [List.filter_append, h3, h4, h5, List.map_cons, List.flatten_cons,
        List.append_assoc]

theorem foldLang_twice (page : List GitHubRepo)
    (table : List RepositoryLanguageRow)
    (hnodup : (page.map GitHubRepo.databaseId).Nodup) :
    page.foldl replaceLanguages (page.foldl replaceLanguages table) =
      page.foldl replaceLanguages table := by
  rw [foldLang_char page table hnodup]
  rw [foldLang_char page _ hnodup]
  rw [List.filter_append]
  have h1 : (table.filter
      (fun row => !(langTouchedIds page).contains row.repository_id)).filter
        (fun row => !(langTouchedIds page).contains row.repository_id) =
      table.filter (fun row => !(langTouchedIds page).contains row.repository_id) :=
    List.filter_eq_self.mpr fun r hr => (List.mem_filter.mp hr).2
  have h2 : (((page.filter (fun p => !p.languagesEdges.isEmpty)).map
      langBlock).flatten).filter
        (fun row => !(langTouchedIds page).contains row.repository_id) = [] := by
    refine List.filter_eq_nil_iff.mpr fun r hr hpr => ?_
    rcases List.mem_flatten.mp hr with ⟨blk, hblk, hrblk⟩
    rcases List.mem_map.mp hblk with ⟨p, hp, rfl⟩
    have hid : r.repository_id = p.databaseId :=
      langFold_ids p p.languagesEdges [] (fun r h => by cases h) r hrblk
    have hmem : r.repository_id ∈ langTouchedIds page := by
      rw [hid]
      exact List.mem_map_of_mem _ hp
    simp [hmem] at hpr
  rw [h1, h2, List.append_nil]

/-! ### Resync idempotence: the repository_stats table -/

theorem upsertStats_of_synced {table : List RepositoryStatsRow}
    {repo : GitHubRepo} {now : Int}
    (hex : table.any (fun r => r.repository_id == repo.databaseId) = true)
    (hsync : ∀ r ∈ table, r.repository_id = repo.databaseId →
      r = toStatsRow repo now) :
    upsertStats table repo now = table := by
  unfold upsertStats
  rw [if_pos hex]
  conv_rhs => rw [← List.map_id table]
  refine List.map_congr_left fun r hr => ?_
  by_cases hid : (r.repository_id == repo.databaseId) = true
  · rw [if_pos hid]
    exact (hsync r hr (by simpa using hid)).symm
  · rw [if_neg hid]
    rfl

theorem upsertStats_synced (table : List RepositoryStatsRow) (repo : GitHubRepo)
    (now : Int) :
    ∀ r ∈ upsertStats table repo now, r.repository_id = repo.databaseId →
      r = toStatsRow repo now := by
  unfold upsertStats
  by_cases hany : (table.any (fun r => r.repository_id == repo.databaseId)) = true
  · rw [if_pos hany]
    intro r hr hid
    rcases List.mem_map.mp hr with ⟨d, hd, rfl⟩
    by_cases h2 : (d.repository_id == repo.databaseId) = true
    · simp only [if_pos h2]
    · simp only [if_neg h2] at hid ⊢
      exact absurd (beq_iff_eq.mpr hid) h2
  · rw [if_neg hany]
    intro r hr hid
    rcases List.mem_append.mp hr with hr2 | hr2
    · refine absurd ?_ hany
      exact List.any_eq_true.mpr ⟨r, hr2, beq_iff_eq.mpr hid⟩
    · simp only [List.mem_singleton] at hr2
      subst hr2
      rfl

theorem upsertStats_any_self (table : List RepositoryStatsRow) (repo : GitHubRepo)
    (now : Int) :
    (upsertStats table repo now).any
      (fun r => r.repository_id == repo.databaseId) = true := by
  unfold upsertStats
  by_cases hany : (table.any (fun r => r.repository_id == repo.databaseId)) = true
  · rw [if_pos hany]
    rcases List.any_eq_true.mp hany with ⟨d, hd, hpd⟩
    refine List.any_eq_true.mpr ⟨_, List.mem_map_of_mem _ hd, ?_⟩
    by_cases h2 : (d.repository_id == repo.databaseId) = true
    · simp only [if_pos h2]
      exact beq_iff_eq.mpr rfl
    · simp only [if_neg h2]
      exact hpd
  · rw [if_neg hany]
    exact List.any_eq_true.mpr ⟨toStatsRow repo now, by simp, beq_iff_eq.mpr rfl⟩

theorem upsertStats_preserves_any (table : List RepositoryStatsRow)
    (p : GitHubRepo) (now : Int) (g : Nat)
    (h : table.any (fun r => r.repository_id == g) = true) :
    (upsertStats table p now).any (fun r => r.repository_id == g) = true := by
  unfold upsertStats
  split
  · rcases List.any_eq_true.mp h with ⟨d, hd, hpd⟩
    refine List.any_eq_true.mpr ⟨_, List.mem_map_of_mem _ hd, ?_⟩
    by_cases h2 : (d.repository_id == p.databaseId) = true
    · simp only [if_pos h2]
      have hg : d.repository_id = g := by simpa using hpd
      have hp2 : d.repository_id = p.databaseId := by simpa using h2
      exact beq_iff_eq.mpr (hp2.symm.trans hg)
    · simp only [if_neg h2]
      exact hpd
  · rcases List.any_eq_true.mp h with ⟨d, hd, hpd⟩
    exact List.any_eq_true.mpr ⟨d, List.mem_append_left _ hd, hpd⟩

theorem upsertStats_preserves_synced (table : List RepositoryStatsRow)
    (p repo : GitHubRepo) (now : Int) (hne : p.databaseId ≠ repo.databaseId)
    (hsync : ∀ r ∈ table, r.repository_id = repo.databaseId →
      r = toStatsRow repo now) :
    ∀ r ∈ upsertStats table p now, r.repository_id = repo.databaseId →
      r = toStatsRow repo now := by
  unfold upsertStats
  split
  · intro r hr hid
    rcases List.mem_map.mp hr with ⟨d, hd, rfl⟩
    by_cases h2 : (d.repository_id == p.databaseId) = true
    · simp only [if_pos h2] at hid ⊢
      have hid' : p.databaseId = repo.databaseId := hid
      exact absurd hid' hne
    · simp only [if_neg h2] at hid ⊢
      exact hsync d hd hid
  · intro r hr hid
    rcases List.mem_append.mp hr with hr2 | hr2
    · exact hsync r hr2 hid
    · simp only [List.mem_singleton] at hr2
      subst hr2
      have hid' : p.databaseId = repo.databaseId := hid
      exact absurd hid' hne

theorem foldS_preserves_any (rest : List GitHubRepo) (now : Int) :
    ∀ (table : List RepositoryStatsRow) (g : Nat),
      table.any (fun r => r.repository_id == g) = true →
      (rest.foldl (fun t p => upsertStats t p now) table).any
        (fun r => r.repository_id == g) = true := by
  induction rest with
  | nil => exact fun table g h => h
  | cons q tail ih =>
    intro table g h
    exact ih _ g (upsertStats_preserves_any table q now g h)

theorem foldS_preserves_synced (rest : List GitHubRepo) (now : Int) :
    ∀ (table : List RepositoryStatsRow) (repo : GitHubRepo),
      (∀ q ∈ rest, q.databaseId ≠ repo.databaseId) →
      (∀ r ∈ table, r.repository_id = repo.databaseId → r = toStatsRow repo now) →
      ∀ r ∈ rest.foldl (fun t p => upsertStats t p now) table,
        r.repository_id = repo.databaseId → r = toStatsRow repo now := by
  induction rest with
  | nil => exact fun table repo _ h => h
  | cons q tail ih =>
    intro table repo hne h
    exact ih _ repo (fun q' hq' => hne q' (List.mem_cons_of_mem _ hq'))
      (upsertStats_preserves_synced table q repo now (hne q (by simp)) h)

theorem foldS_establishes (page : List GitHubRepo) (now : Int) :
    ∀ table : List RepositoryStatsRow, (page.map GitHubRepo.databaseId).Nodup →
      ∀ p ∈ page,
        ((page.foldl (fun t q => upsertStats t q now) table).any
            (fun r => r.repository_id == p.databaseId) = true) ∧
          ∀ r ∈ page.foldl (fun t q => upsertStats t q now) table,
            r.repository_id = p.databaseId → r = toStatsRow p now := by
  induction page with
  | nil => intro table _ p hp; cases hp
  | cons q rest ih =>
    intro table hnodup p hp
    rw [List.map_cons, List.nodup_cons] at hnodup
    rcases List.mem_cons.mp hp with rfl | hmem
    · constructor
      · exact foldS_preserves_any rest now _ _ (upsertStats_any_self table p now)
      · refine foldS_preserves_synced rest now _ p ?_ (upsertStats_synced table p now)
        intro q' hq' he
        exact hnodup.1 (he ▸ List.mem_map_of_mem _ hq')
    · exact ih (upsertStats table q now) hnodup.2 p hmem

theorem foldS_idem (page : List GitHubRepo) (now : Int) :
    ∀ table : List RepositoryStatsRow,
      (∀ p ∈ page,
        table.any (fun r => r.repository_id == p.databaseId) = true ∧
          ∀ r ∈ table, r.repository_id = p.databaseId → r = toStatsRow p now) →
      page.foldl (fun t q => upsertStats t q now) table = table := by
  induction page with
  | nil => intro table _; rfl
  | cons q rest ih =>
    intro table h
    rw [List.foldl_cons, upsertStats_of_synced (h q (by simp)).1 (h q (by simp)).2]
    exact ih table fun p hp => h p (List.mem_cons_of_mem _ hp)

theorem foldS_twice (page : List GitHubRepo) (now : Int)
    (table : List RepositoryStatsRow)
    (hnodup : (page.map GitHubRepo.databaseId).Nodup) :
    page.foldl (fun t q => upsertStats t q now)
        (page.foldl (fun t q => upsertStats t q now) table) =
      page.foldl (fun t q => upsertStats t q now) table :=
  foldS_idem page now _ (foldS_establishes page now table hnodup)

/-! ### Assembling the sync page -/

theorem DBState_ext {a b : DBState} (h1 : a.repositories = b.repositories)
    (h2 : a.repository_languages = b.repository_languages)
    (h3 : a.repository_stats = b.repository_stats) : a = b := by
  cases a
  cases b
  simp only at h1 h2 h3
  rw [h1, h2, h3]

theorem batchSave_components (page : List GitHubRepo) :
    ∀ db : DBState,
      (batchSaveRepositories db page).repositories =
          page.foldl upsertRepository db.repositories ∧
        (batchSaveRepositories db page).repository_languages =
          page.foldl replaceLanguages db.repository_languages ∧
        (batchSaveRepositories db page).repository_stats = db.repository_stats := by
  induction page with
  | nil => exact fun db => ⟨rfl, rfl, rfl⟩
  | cons q rest ih =>
    intro db
    exact ih (saveRepositoryWithLanguages db q)

theorem calcStats_components (page : List GitHubRepo) :
    ∀ (db : DBState) (now : Int),
      (∀ p ∈ page,
        db.repositories.any (fun r => r.github_id == p.databaseId) = true) →
      (calculateAndSaveStats db page now).repositories = db.repositories ∧
        (calculateAndSaveStats db page now).repository_languages =
          db.repository_languages ∧
        (calculateAndSaveStats db page now).repository_stats =
          page.foldl (fun t p => upsertStats t p now) db.repository_stats := by
  induction page with
  | nil => exact fun db now _ => ⟨rfl, rfl, rfl⟩
  | cons q rest ih =>
    intro db now h
    have hstep : calculateAndSaveStats db (q :: rest) now =
        calculateAndSaveStats
          { db with repository_stats := upsertStats db.repository_stats q now }
          rest now := by
      unfold calculateAndSaveStats
      rw [List.foldl_cons]
      congr 1
      exact if_pos (h q (by simp))
    rw [hstep]
    exact ih _ now fun p hp => h p (List.mem_cons_of_mem _ hp)

/-- C9 fails on the code: the resync upsert is not a field-for-field
update.  Saving the same repository again with a changed homepage URL
leaves the stored `homepage_url` at its insert-time value, because
`homepage_url` is not in the `ON CONFLICT ... DO UPDATE SET` column
list. -/
theorem resync_not_field_for_field :
    (batchSaveRepositories (batchSaveRepositories emptyDB [resyncProbeOld])
          [resyncProbeNew]).repositories.map RepositoryRow.homepage_url =
        [some "https://old.example"] ∧
      resyncProbeNew.homepageUrl = some "https://new.example" := by decide

/-- C9 (amended): re-running the same sync page (same snapshots, same
clock reading) is a no-op — the stored repository, language and stats
tables are unchanged; but on changed input the resync updates exactly the
`ON CONFLICT` column list (name, description, counters, size, language,
topics, updated/pushed timestamps, archived/disabled, issue/wiki/pages/
discussions flags), while every other repository column keeps its stored
insert-time value. -/
theorem sync_page_idempotent (db : DBState) (page : List GitHubRepo) (now : Int)
    (hnodup : (page.map GitHubRepo.databaseId).Nodup) :
    syncPage (syncPage db page now) page now = syncPage db page now ∧
    (∀ (old : RepositoryRow) (repo : GitHubRepo),
      ((updateRepositoryRow old repo).name = repo.name ∧
        (updateRepositoryRow old repo).description = repo.description ∧
        (updateRepositoryRow old repo).stars_count = repo.stargazerCount ∧
        (updateRepositoryRow old repo).forks_count = repo.forkCount ∧
        (updateRepositoryRow old repo).watchers_count =
          repo.watchersTotalCount.getD 0 ∧
        (updateRepositoryRow old repo).open_issues_count =
          repo.issuesTotalCount.getD 0 ∧
        (updateRepositoryRow old repo).size_kb = repo.diskUsage.getD 0 ∧
        (updateRepositoryRow old repo).language = repo.primaryLanguage ∧
        (updateRepositoryRow old repo).topics = repo.topics ∧
        (updateRepositoryRow old repo).updated_at = repo.updatedAt ∧
        (updateRepositoryRow old repo).pushed_at = repo.pushedAt ∧
        (updateRepositoryRow old repo).is_archived = repo.isArchived ∧
        (updateRepositoryRow old repo).is_disabled = repo.isDisabled ∧
        (updateRepositoryRow old repo).has_issues = repo.hasIssuesEnabled ∧
        (updateRepositoryRow old repo).has_wiki = repo.hasWikiEnabled ∧
        (updateRepositoryRow old repo).has_pages = false ∧
        (updateRepositoryRow old repo).has_discussions =
          repo.hasDiscussionsEnabled) ∧
      ((updateRepositoryRow old repo).github_id = old.github_id ∧
        (updateRepositoryRow old repo).full_name = old.full_name ∧
        (updateRepositoryRow old repo).owner_login = old.owner_login ∧
        (updateRepositoryRow old repo).owner_avatar_url = old.owner_avatar_url ∧
        (updateRepositoryRow old repo).owner_type = old.owner_type ∧
        (updateRepositoryRow old repo).html_url = old.html_url ∧
        (updateRepositoryRow old repo).homepage_url = old.homepage_url ∧
        (updateRepositoryRow old repo).license_name = old.license_name ∧
        (updateRepositoryRow old repo).license_key = old.license_key ∧
        (updateRepositoryRow old repo).created_at = old.created_at ∧
        (updateRepositoryRow old repo).is_fork = old.is_fork ∧
        (updateRepositoryRow old repo).allow_forking = old.allow_forking ∧
        (updateRepositoryRow old repo).is_template = old.is_template ∧
        (updateRepositoryRow old repo).visibility = old.visibility ∧
        (updateRepositoryRow old repo).has_projects = old.has_projects ∧
        (updateRepositoryRow old repo).has_downloads = old.has_downloads ∧
        (updateRepositoryRow old repo).default_branch = old.default_branch ∧
        (updateRepositoryRow old repo).subscribers_count =
          old.subscribers_count ∧
        (updateRepositoryRow old repo).network_count = old.network_count)) := by
  constructor
  · obtain ⟨hB1, hB2, hB3⟩ := batchSave_components page db
    have hBany : ∀ p ∈ page,
        (batchSaveRepositories db page).repositories.any
          (fun r => r.github_id == p.databaseId) = true := fun p hp => by
      rw [hB1]
      exact foldU_any_all page db.repositories p hp
    obtain ⟨hC1, hC2, hC3⟩ :=
      calcStats_components page (batchSaveRepositories db page) now hBany
    obtain ⟨hD1, hD2, hD3⟩ := batchSave_components page (syncPage db page now)
    have hrepos1 : (syncPage db page now).repositories =
        page.foldl upsertRepository db.repositories := by
      show (calculateAndSaveStats (batchSaveRepositories db page) page
        now).repositories = _
      rw [hC1, hB1]
    have hlangs1 : (syncPage db page now).repository_languages =
        page.foldl replaceLanguages db.repository_languages := by
      show (calculateAndSaveStats (batchSaveRepositories db page) page
        now).repository_languages = _
      rw [hC2, hB2]
    have hstats1 : (syncPage db page now).repository_stats =
        page.foldl (fun t p => upsertStats t p now) db.repository_stats := by
      show (calculateAndSaveStats (batchSaveRepositories db page) page
        now).repository_stats = _
      rw [hC3, hB3]
    have hB2repos : (batchSaveRepositories (syncPage db page now)
        page).repositories = page.foldl upsertRepository db.repositories := by
      rw [hD1, hrepos1, foldU_twice page db.repositories hnodup]
    have hB2langs : (batchSaveRepositories (syncPage db page now)
        page).repository_languages =
        page.foldl replaceLanguages db.repository_languages := by
      rw [hD2, hlangs1, foldLang_twice page db.repository_languages hnodup]
    have hB2stats : (batchSaveRepositories (syncPage db page now)
        page).repository_stats =
        page.foldl (fun t p => upsertStats t p now) db.repository_stats := by
      rw [hD3, hstats1]
    have hB2any : ∀ p ∈ page,
        (batchSaveRepositories (syncPage db page now) page).repositories.any
          (fun r => r.github_id == p.databaseId) = true := fun p hp => by
      rw [hB2repos]
      exact foldU_any_all page db.repositories p hp
    obtain ⟨hE1, hE2, hE3⟩ := calcStats_components page
      (batchSaveRepositories (syncPage db page now) page) now hB2any
    refine DBState_ext ?_ ?_ ?_
    · show (calculateAndSaveStats
        (batchSaveRepositories (syncPage db page now) page) page
        now).repositories = _
      rw [hE1, hB2repos, hrepos1]
    · show (calculateAndSaveStats
        (batchSaveRepositories (syncPage db page now) page) page
        now).repository_languages = _
      rw [hE2, hB2langs, hlangs1]
    · show (calculateAndSaveStats
        (batchSaveRepositories (syncPage db page now) page) page
        now).repository_stats = _
      rw [hE3, hB2stats, foldS_twice page now db.repository_stats hnodup,
        hstats1]
  · intro old repo
    exact ⟨⟨rfl, rfl, rfl, rfl, rfl, rfl, rfl, rfl, rfl, rfl, rfl, rfl, rfl,
        rfl, rfl, rfl, rfl⟩,
      ⟨rfl, rfl, rfl, rfl, rfl, rfl, rfl, rfl, rfl, rfl, rfl, rfl, rfl, rfl,
        rfl, rfl, rfl, rfl, rfl⟩⟩

/-- Witness for the amended C9 at a concrete input: one probe snapshot over
the empty store. -/
theorem sync_page_idempotent_witness :
    syncPage (syncPage emptyDB [resyncProbeOld] 0) [resyncProbeOld] 0 =
      syncPage emptyDB [resyncProbeOld] 0 :=
  (sync_page_idempotent emptyDB [resyncProbeOld] 0 (by decide)).1

end GitHop
